import Mathlib

/-!
# awsreportgo: consolidated manager report

A shallow embedding of `main.go`: the CSV loader (`parseCSV`, `getColumnValue`,
`indexOf`), the merge and sort step of `main`, and the CSV writer (`writeCSV`).

Modelling conventions.

* A Go `string` is a Lean `String`. Go compares strings byte by byte; on valid
  UTF-8 that order is the order of code points, which is how `String` compares.
* A Go `int` index is an `Int`; a slice of strings is a `List String`.
* A run-time panic (index out of range) is the `panic` constructor of `Outcome`,
  distinct from a returned `error`.
* The file system and the CSV tokenizer are outside the program: `parseCSV`
  receives what `os.Open` followed by `ReadAll` produced for the file name.
* `sort.Slice` is library code. What holds for every sort enters through a
  parameter that satisfies the documented contract of the Go `sort` package; what
  the library does on a given slice is computed by `Slice`, an embedding of its
  implementation.
-/

namespace AwsReport

/-! ## Data model -/

/-- The `Record` struct: twelve raw text fields. -/
structure Record where
  ReportType : String
  FirstName : String
  LastName : String
  Email : String
  SentDateUTC : String
  Title : String
  Status : String
  QuizScore : String
  Clicked : String
  ManagerFirstName : String
  ManagerLastName : String
  ManagerEmail : String
  deriving DecidableEq, Repr

/-- How a Go call ends: a value, a returned `error`, or a run-time panic caused by
indexing a slice of length `len` at `idx`. -/
inductive Outcome (α : Type) where
  | ok (val : α)
  | error (msg : String)
  | panic (idx : Int) (len : Nat)
  deriving DecidableEq, Repr

/-- Sequencing of Go statements: the first error or panic ends the call. -/
def Outcome.bind {α β : Type} (x : Outcome α) (f : α → Outcome β) : Outcome β :=
  match x with
  | .ok v => f v
  | .error m => .error m
  | .panic i n => .panic i n

instance : Monad Outcome where
  pure := Outcome.ok
  bind := Outcome.bind

/-! ## Library functions used by the program -/

/-- Go `unicode.IsSpace`: the code points with the White Space property. -/
def isSpace (c : Char) : Bool :=
  let n := c.toNat
  (9 ≤ n && n ≤ 13) || n = 32 || n = 0x85 || n = 0xA0 || n = 0x1680 ||
  (0x2000 ≤ n && n ≤ 0x200A) || n = 0x2028 || n = 0x2029 || n = 0x202F ||
  n = 0x205F || n = 0x3000

/-- Go `strings.TrimSpace`: all leading and trailing white space removed. -/
def TrimSpace (s : String) : String :=
  ⟨(s.data.dropWhile isSpace).rdropWhile isSpace⟩

/-- Go `strings.TrimSuffix`: `s` without the trailing `suffix`, or `s` itself. -/
def TrimSuffix (s suffix : String) : String :=
  if suffix.data.isSuffixOf s.data then ⟨s.data.take (s.length - suffix.length)⟩ else s

/-- Go slice indexing `row[i]` with a run-time bounds check. -/
def index (row : List String) (i : Int) : Outcome String :=
  if i < 0 then .panic i row.length
  else
    match row.get? i.toNat with
    | some v => .ok v
    | none => .panic i row.length

/-! ## CSV loader -/

/-- The loop of `indexOf`, with `i` the index of the first element of `headers`. -/
def indexOfFrom (columnName : String) : List String → Nat → Int
  | [], _ => -1
  | v :: rest, i =>
    if TrimSpace v = columnName then (i : Int) else indexOfFrom columnName rest (i + 1)

/-- Helper function to get the index of a column in the header row. -/
def indexOf (headers : List String) (columnName : String) : Int :=
  indexOfFrom columnName headers 0

/-- Helper function to get column value based on the column name. -/
def getColumnValue (headers row : List String) (columnName : String) : Outcome String :=
  let idx := indexOf headers columnName
  if idx = -1 then .ok "" else index row idx

/-- The composite literal `Record{...}` inside the loop of `parseCSV`; its field
expressions are evaluated in source order. -/
def buildRecord (headers row : List String) (reportType : String) : Outcome Record := do
  let firstName ← index row (indexOf headers "First Name")
  let lastName ← index row (indexOf headers "Last Name")
  let email ← index row (indexOf headers "Email")
  let sentDateUTC ← index row (indexOf headers "Sent Date (UTC)")
  let title ← index row (indexOf headers "Title")
  let status ← getColumnValue headers row "Status"
  let quizScore ← getColumnValue headers row "Quiz Score"
  let clicked ← getColumnValue headers row "Clicked"
  let managerFirstName ← index row (indexOf headers "Manager First Name")
  let managerLastName ← index row (indexOf headers "Manager Last Name")
  let managerEmail ← index row (indexOf headers "Manager Email")
  pure {
    ReportType := reportType
    FirstName := firstName
    LastName := lastName
    Email := email
    SentDateUTC := sentDateUTC
    Title := title
    Status := status
    QuizScore := quizScore
    Clicked := clicked
    ManagerFirstName := managerFirstName
    ManagerLastName := managerLastName
    ManagerEmail := managerEmail }

/-- The loop `for _, row := range records[1:]` of `parseCSV`; `result` is the slice
built so far. -/
def parseRows (headers : List String) (reportType managerEmail : String) :
    List (List String) → List Record → Outcome (List Record)
  | [], result => .ok result
  | row :: rest, result => do
    let last ← index row ((row.length : Int) - 1)
    if last = managerEmail then
      let record ← buildRecord headers row reportType
      parseRows headers reportType managerEmail rest (result ++ [record])
    else
      parseRows headers reportType managerEmail rest result

/-- What `os.Open` followed by `csv.NewReader(file).ReadAll()` yields for a file. -/
inductive Loaded where
  | openFails (err : String)
  | readFails (err : String)
  | parsed (records : List (List String))
  deriving DecidableEq, Repr

/-- Function to read CSV files and return filtered records. -/
def parseCSV (file : Loaded) (reportType managerEmail : String) : Outcome (List Record) :=
  match file with
  | .openFails err => .error ("error opening file: " ++ err)
  | .readFails err => .error ("error reading CSV file: " ++ err)
  | .parsed records =>
    match records with
    | [] => .panic 0 0
    | headers :: rows => parseRows headers reportType managerEmail rows []

/-! ## Merge and sort -/

/-- The Go operator `<` on strings: lexicographic comparison, element by element. -/
def stringLess (a b : String) : Bool :=
  decide (a.data < b.data)

/-- The closure handed to `sort.Slice` in `main`, as a comparison of the two
records found at the indices it is called with. -/
def less (a b : Record) : Bool :=
  if a.ReportType = b.ReportType then stringLess a.FirstName b.FirstName
  else stringLess a.ReportType b.ReportType

/-- The requirement the Go `sort` package places on a `less` function: a strict
weak ordering (irreflexive, transitive, and transitive when false both ways). -/
structure StrictWeak (lt : Record → Record → Bool) : Prop where
  irrefl : ∀ a, lt a a = false
  trans : ∀ a b c, lt a b = true → lt b c = true → lt a c = true
  negTrans : ∀ a b c, lt a b = false → lt b c = false → lt a c = false

/-- The documented contract of Go `sort.Slice`: the slice is rearranged (same
elements) so that no element is `less` than its predecessor, which is what
`sort.SliceIsSorted` tests. The documentation states that the sort is not
guaranteed to be stable, so the contract says nothing about equal elements. -/
structure SortSlice where
  run : (Record → Record → Bool) → List Record → List Record
  perm : ∀ lt l, (run lt l).Perm l
  sorted : ∀ lt l, StrictWeak lt → (run lt l).Chain' (fun a b => lt b a = false)

/-- Insertion sort as one implementation of the contract; it keeps equal elements
in their input order. -/
def insertionSortSlice : SortSlice where
  run lt l := l.insertionSort (fun a b => lt b a = false)
  perm lt l := List.perm_insertionSort _ l
  sorted lt l h := by
    haveI : IsTotal Record (fun a b => lt b a = false) := ⟨fun a b => by
      cases hba : lt b a with
      | false => exact Or.inl rfl
      | true =>
        cases hab : lt a b with
        | false => exact Or.inr rfl
        | true =>
          have := h.trans a b a hab hba
          rw [h.irrefl a] at this
          exact absurd this Bool.false_ne_true⟩
    haveI : IsTrans Record (fun a b => lt b a = false) :=
      ⟨fun a b c hab hbc => h.negTrans c b a hbc hab⟩
    exact (List.sorted_insertionSort (fun a b => lt b a = false) l).chain'

/-- Insertion sort of the reversed slice: a second function that meets the
contract, used to vary the sorter in statements that hold for every sorter. It is
not the implementation of the library, which is `Slice` below. -/
def reversingSortSlice : SortSlice where
  run lt l := insertionSortSlice.run lt l.reverse
  perm lt l := (insertionSortSlice.perm lt l.reverse).trans (List.reverse_perm l)
  sorted lt l h := insertionSortSlice.sorted lt l.reverse h

/-! ## The implementation of `sort.Slice`

The functions below follow the Go standard library (package `sort`, file
`zsortfunc.go`, the pattern-defeating quicksort used since Go 1.19). The slice is a
list, `data.Less(i, j)` is the comparison applied to the elements at `i` and `j`,
`data.Swap(i, j)` exchanges them. Loops carry a bound on their number of rounds. -/

/-- The method `Less(i, j)` of the `lessSwap` that `sort.Slice` builds. -/
def lessAt (lt : Record → Record → Bool) (data : List Record) (i j : Nat) : Bool :=
  match data.get? i, data.get? j with
  | some x, some y => lt x y
  | _, _ => false

/-- The method `Swap(i, j)` of the `lessSwap` that `sort.Slice` builds. -/
def swapAt (data : List Record) (i j : Nat) : List Record :=
  match data.get? i, data.get? j with
  | some x, some y => (data.set i y).set j x
  | _, _ => data

/-- The inner loop of `insertionSort_func`:
`for j := i; j > a && data.Less(j, j-1); j-- { data.Swap(j, j-1) }`. -/
def insertionInner (lt : Record → Record → Bool) (a : Nat) : Nat → List Record → List Record
  | 0, data => data
  | j + 1, data =>
    if a < j + 1 && lessAt lt data (j + 1) j then
      insertionInner lt a j (swapAt data (j + 1) j)
    else data

/-- The outer loop of `insertionSort_func`: `for i := a + 1; i < b; i++`. -/
def insertionOuter (lt : Record → Record → Bool) (a b : Nat) :
    Nat → Nat → List Record → List Record
  | 0, _, data => data
  | fuel + 1, i, data =>
    if i < b then insertionOuter lt a b fuel (i + 1) (insertionInner lt a i data) else data

/-- Go `insertionSort_func`: sorts `data[a:b]` using insertion sort. -/
def insertionSort_func (lt : Record → Record → Bool) (data : List Record) (a b : Nat) :
    List Record :=
  insertionOuter lt a b (b - a) (a + 1) data

/-- The loop of `siftDown_func`, from `root`. -/
def siftDownLoop (lt : Record → Record → Bool) (hi first : Nat) :
    Nat → Nat → List Record → List Record
  | 0, _, data => data
  | fuel + 1, root, data =>
    let child := 2 * root + 1
    if hi ≤ child then data
    else
      let child :=
        if child + 1 < hi && lessAt lt data (first + child) (first + child + 1) then child + 1
        else child
      if !lessAt lt data (first + root) (first + child) then data
      else siftDownLoop lt hi first fuel child (swapAt data (first + root) (first + child))

/-- Go `siftDown_func`: implements the heap property on `data[lo:hi]`. -/
def siftDown_func (lt : Record → Record → Bool) (data : List Record) (lo hi first : Nat) :
    List Record :=
  siftDownLoop lt hi first hi lo data

/-- The first loop of `heapSort_func`: `for i := (hi - 1) / 2; i >= 0; i--`. -/
def heapBuild (lt : Record → Record → Bool) (hi first : Nat) : Nat → List Record → List Record
  | 0, data => siftDown_func lt data 0 hi first
  | i + 1, data => heapBuild lt hi first i (siftDown_func lt data (i + 1) hi first)

/-- The second loop of `heapSort_func`: `for i := hi - 1; i >= 0; i--`. -/
def heapPop (lt : Record → Record → Bool) (first : Nat) : Nat → List Record → List Record
  | 0, data => siftDown_func lt (swapAt data first first) 0 0 first
  | i + 1, data =>
    heapPop lt first i (siftDown_func lt (swapAt data first (first + (i + 1))) 0 (i + 1) first)

/-- Go `heapSort_func`, called on slices of more than twelve elements. -/
def heapSort_func (lt : Record → Record → Bool) (data : List Record) (a b : Nat) :
    List Record :=
  let hi := b - a
  heapPop lt a (hi - 1) (heapBuild lt hi a ((hi - 1) / 2) data)

/-- The loop `for i <= j && cond(i) { i++ }`. -/
def scanUp (cond : Nat → Bool) (j : Nat) : Nat → Nat → Nat
  | 0, i => i
  | fuel + 1, i => if i ≤ j && cond i then scanUp cond j fuel (i + 1) else i

/-- The loop `for i <= j && cond(j) { j-- }`, where `i` is at least 1. -/
def scanDown (cond : Nat → Bool) (i : Nat) : Nat → Nat
  | 0 => 0
  | j + 1 => if i ≤ j + 1 && cond (j + 1) then scanDown cond i j else j + 1

/-- The closing `for` loop of `partition_func`; returns the slice and `j`. -/
def partitionLoop (lt : Record → Record → Bool) (a : Nat) :
    Nat → List Record → Nat → Nat → List Record × Nat
  | 0, data, _, j => (data, j)
  | fuel + 1, data, i, j =>
    let i2 := scanUp (fun x => lessAt lt data x a) j (j + 1) i
    let j2 := scanDown (fun x => !lessAt lt data x a) i2 j
    if j2 < i2 then (data, j2)
    else partitionLoop lt a fuel (swapAt data i2 j2) (i2 + 1) (j2 - 1)

/-- Go `partition_func`: one quicksort partition of `data[a:b]` around
`data[pivot]`; returns the slice, the new pivot index and `alreadyPartitioned`. -/
def partition_func (lt : Record → Record → Bool) (data : List Record) (a b pivot : Nat) :
    List Record × Nat × Bool :=
  let data := swapAt data a pivot
  let i := scanUp (fun x => lessAt lt data x a) (b - 1) b (a + 1)
  let j := scanDown (fun x => !lessAt lt data x a) i (b - 1)
  if j < i then (swapAt data j a, j, true)
  else
    let r := partitionLoop lt a (b - a) (swapAt data i j) (i + 1) (j - 1)
    (swapAt r.1 r.2 a, r.2, false)

/-- The `for` loop of `partitionEqual_func`; returns the slice and `i`. -/
def partitionEqualLoop (lt : Record → Record → Bool) (a : Nat) :
    Nat → List Record → Nat → Nat → List Record × Nat
  | 0, data, i, _ => (data, i)
  | fuel + 1, data, i, j =>
    let i2 := scanUp (fun x => !lessAt lt data a x) j (j + 1) i
    let j2 := scanDown (fun x => lessAt lt data a x) i2 j
    if j2 < i2 then (data, i2)
    else partitionEqualLoop lt a fuel (swapAt data i2 j2) (i2 + 1) (j2 - 1)

/-- Go `partitionEqual_func`: partitions `data[a:b]` into the elements equal to
`data[pivot]` followed by the greater ones. -/
def partitionEqual_func (lt : Record → Record → Bool) (data : List Record) (a b pivot : Nat) :
    List Record × Nat :=
  partitionEqualLoop lt a (b - a + 1) (swapAt data a pivot) (a + 1) (b - 1)

/-- The loop `for j := i - 1; j >= 1; j--` of `partialInsertionSort_func`. -/
def shiftSmaller (lt : Record → Record → Bool) : Nat → List Record → List Record
  | 0, data => data
  | j + 1, data =>
    if !lessAt lt data (j + 1) j then data else shiftSmaller lt j (swapAt data (j + 1) j)

/-- The loop `for j := i + 1; j < b; j++` of `partialInsertionSort_func`. -/
def shiftGreater (lt : Record → Record → Bool) (b : Nat) :
    Nat → Nat → List Record → List Record
  | 0, _, data => data
  | fuel + 1, j, data =>
    if j < b then
      if !lessAt lt data j (j - 1) then data
      else shiftGreater lt b fuel (j + 1) (swapAt data j (j - 1))
    else data

/-- The loop `for j := 0; j < maxSteps; j++` of `partialInsertionSort_func`. -/
def partialInsertionLoop (lt : Record → Record → Bool) (a b : Nat) :
    Nat → List Record → Nat → List Record × Bool
  | 0, data, _ => (data, false)
  | steps + 1, data, i =>
    let i := scanUp (fun x => !lessAt lt data x (x - 1)) (b - 1) b i
    if i = b then (data, true)
    else if b - a < 50 then (data, false)
    else
      let data := swapAt data i (i - 1)
      let data := if 2 ≤ i - a then shiftSmaller lt (i - 1) data else data
      let data := if 2 ≤ b - i then shiftGreater lt b b (i + 1) data else data
      partialInsertionLoop lt a b steps data i

/-- Go `partialInsertionSort_func`: partially sorts a slice, returns true if the
slice is sorted at the end. -/
def partialInsertionSort_func (lt : Record → Record → Bool) (data : List Record) (a b : Nat) :
    List Record × Bool :=
  partialInsertionLoop lt a b 5 data (a + 1)

/-- The loop of Go `bits.Len`. -/
def bitsLenLoop : Nat → Nat → Nat
  | 0, _ => 0
  | fuel + 1, x => if x = 0 then 0 else bitsLenLoop fuel (x / 2) + 1

/-- Go `bits.Len`: the number of bits needed to represent `x`. -/
def bitsLen (x : Nat) : Nat :=
  bitsLenLoop x x

/-- Go `nextPowerOfTwo`: `1 << bits.Len(length)`. -/
def nextPowerOfTwo (length : Nat) : Nat :=
  2 ^ bitsLen length

/-- Go `breakPatterns_func`: scatters three elements around. `xorshiftNext` is one
step of the `xorshift` generator of the package on its 64-bit state. -/
def breakPatterns_func (xorshiftNext : Nat → Nat) (data : List Record) (a b : Nat) :
    List Record :=
  let length := b - a
  if 8 ≤ length then
    let modulus := nextPowerOfTwo length
    let idx := a + (length / 4) * 2 - 1
    let step := fun (st : Nat × List Record) (i : Nat) =>
      let random := xorshiftNext st.1
      let other := random &&& (modulus - 1)
      let other := if length ≤ other then other - length else other
      (random, swapAt st.2 (idx - 1 + i) (a + other))
    ([0, 1, 2].foldl step (length, data)).2
  else data

/-- Go `sortedHint`: hint for pdqsort when choosing the pivot. -/
inductive sortedHint where
  | unknownHint
  | increasingHint
  | decreasingHint
  deriving DecidableEq, Repr

/-- Go `order2_func`: returns `x, y` with `data[x] <= data[y]`, and the count of
swaps. -/
def order2_func (lt : Record → Record → Bool) (data : List Record) (a b swaps : Nat) :
    Nat × Nat × Nat :=
  if lessAt lt data b a then (b, a, swaps + 1) else (a, b, swaps)

/-- Go `median_func`: the index of the median of `data[a]`, `data[b]`, `data[c]`,
and the count of swaps. -/
def median_func (lt : Record → Record → Bool) (data : List Record) (a b c swaps : Nat) :
    Nat × Nat :=
  let r1 := order2_func lt data a b swaps
  let r2 := order2_func lt data r1.2.1 c r1.2.2
  let r3 := order2_func lt data r1.1 r2.1 r2.2.2
  (r3.2.1, r3.2.2)

/-- Go `medianAdjacent_func`: the median of `data[a - 1]`, `data[a]`, `data[a + 1]`. -/
def medianAdjacent_func (lt : Record → Record → Bool) (data : List Record) (a swaps : Nat) :
    Nat × Nat :=
  median_func lt data (a - 1) a (a + 1) swaps

/-- Go `choosePivot_func`: chooses a pivot in `data[a:b]`. -/
def choosePivot_func (lt : Record → Record → Bool) (data : List Record) (a b : Nat) :
    Nat × sortedHint :=
  let l := b - a
  let i := a + l / 4 * 1
  let j := a + l / 4 * 2
  let k := a + l / 4 * 3
  let r :=
    if 8 ≤ l then
      if 50 ≤ l then
        let ri := medianAdjacent_func lt data i 0
        let rj := medianAdjacent_func lt data j ri.2
        let rk := medianAdjacent_func lt data k rj.2
        median_func lt data ri.1 rj.1 rk.1 rk.2
      else median_func lt data i j k 0
    else (j, 0)
  if r.2 = 0 then (r.1, .increasingHint)
  else if r.2 = 12 then (r.1, .decreasingHint)
  else (r.1, .unknownHint)

/-- The loop of `reverseRange_func`. -/
def reverseLoop : Nat → List Record → Nat → Nat → List Record
  | 0, data, _, _ => data
  | fuel + 1, data, i, j =>
    if i < j then reverseLoop fuel (swapAt data i j) (i + 1) (j - 1) else data

/-- Go `reverseRange_func`: reverses `data[a:b]`. -/
def reverseRange_func (data : List Record) (a b : Nat) : List Record :=
  reverseLoop (b - a) data a (b - 1)

/-- Go `pdqsort_func`: sorts `data[a:b]`; `limit` is the number of allowed bad pivots
before falling back to heapsort. One round of the `for` loop per unit of fuel;
`none` when the fuel is used up. -/
def pdqsort_func (xorshiftNext : Nat → Nat) (lt : Record → Record → Bool) :
    Nat → List Record → Nat → Nat → Nat → Bool → Bool → Option (List Record)
  | 0, _, _, _, _, _, _ => none
  | fuel + 1, data, a, b, limit, wasBalanced, wasPartitioned =>
    let length := b - a
    if length ≤ 12 then some (insertionSort_func lt data a b)
    else if limit = 0 then some (heapSort_func lt data a b)
    else
      let data := if wasBalanced then data else breakPatterns_func xorshiftNext data a b
      let limit := if wasBalanced then limit else limit - 1
      let chosen := choosePivot_func lt data a b
      let reversed := decide (chosen.2 = .decreasingHint)
      let data := if reversed then reverseRange_func data a b else data
      let pivot := if reversed then (b - 1) - (chosen.1 - a) else chosen.1
      let hint := if reversed then sortedHint.increasingHint else chosen.2
      let tried :=
        if wasBalanced && wasPartitioned && decide (hint = .increasingHint) then
          partialInsertionSort_func lt data a b
        else (data, false)
      if tried.2 then some tried.1
      else
        let data := tried.1
        if 0 < a && !lessAt lt data (a - 1) pivot then
          let r := partitionEqual_func lt data a b pivot
          pdqsort_func xorshiftNext lt fuel r.1 r.2 b limit wasBalanced wasPartitioned
        else
          let r := partition_func lt data a b pivot
          let mid := r.2.1
          let leftLen := mid - a
          let rightLen := b - mid
          let balanceThreshold := length / 8
          if leftLen < rightLen then
            match pdqsort_func xorshiftNext lt fuel r.1 a mid limit true true with
            | none => none
            | some data =>
              pdqsort_func xorshiftNext lt fuel data (mid + 1) b limit
                (decide (balanceThreshold ≤ leftLen)) r.2.2
          else
            match pdqsort_func xorshiftNext lt fuel r.1 (mid + 1) b limit true true with
            | none => none
            | some data =>
              pdqsort_func xorshiftNext lt fuel data a mid limit
                (decide (balanceThreshold ≤ rightLen)) r.2.2

/-- Go `sort.Slice`: `pdqsort_func(lessSwap, 0, length, bits.Len(uint(length)))`. -/
def Slice (xorshiftNext : Nat → Nat) (lt : Record → Record → Bool) (data : List Record) :
    Option (List Record) :=
  pdqsort_func xorshiftNext lt (data.length + 1) data 0 data.length (bitsLen data.length)
    true true

/-- The four hard-coded input files of `main`. -/
def csvFiles : List String :=
  ["LowScoringUsers.csv", "UserIncompleteSessions.csv", "UserPhishingFailures.csv",
   "UserIncompleteRemediations.csv"]

/-- The loop "Process each file" of `main`; `allRecords` is the slice so far. A
returned error becomes the message of `log.Fatalf`. -/
def processFiles (files : String → Loaded) (managerEmail : String) :
    List String → List Record → Outcome (List Record)
  | [], allRecords => .ok allRecords
  | file :: rest, allRecords =>
    match parseCSV (files file) (TrimSuffix file ".csv") managerEmail with
    | .ok records => processFiles files managerEmail rest (allRecords ++ records)
    | .error err => .error ("Error processing file " ++ file ++ ": " ++ err)
    | .panic i n => .panic i n

/-- The sort step of `main`: `sort.Slice(allRecords, less)`. -/
def sortStep (S : SortSlice) (allRecords : List Record) : List Record :=
  S.run less allRecords

/-! ## CSV writer -/

/-- The header row written by `writeCSV`. -/
def headerRow : List String :=
  ["ReportType", "First Name", "Last Name", "Email", "Sent Date (UTC)", "Title", "Status",
   "Quiz Score", "Clicked", "Manager First Name", "Manager Last Name", "Manager Email"]

/-- The row written for one record by `writeCSV`. -/
def recordRow (record : Record) : List String :=
  [record.ReportType, record.FirstName, record.LastName, record.Email, record.SentDateUTC,
   record.Title, record.Status, record.QuizScore, record.Clicked, record.ManagerFirstName,
   record.ManagerLastName, record.ManagerEmail]

/-- The loop "Write data rows" of `writeCSV`; `out` holds the rows handed to the
CSV writer so far. -/
def writeRows : List Record → List (List String) → List (List String)
  | [], out => out
  | record :: rest, out => writeRows rest (out ++ [recordRow record])

/-- The effect of `writeCSV`: the rows handed to the CSV writer, and the returned
error if any. -/
structure Written where
  rows : List (List String)
  err : Option String
  deriving DecidableEq, Repr

/-- Function to write the output CSV file. `create` is the error of
`os.Create(outputFile)`, if any. -/
def writeCSV (create : Option String) (records : List Record) : Written :=
  match create with
  | some err => { rows := [], err := some ("error creating output file: " ++ err) }
  | none => { rows := writeRows records [headerRow], err := none }

/-! ## The program -/

/-- What the program is run in: `os.Args`, the content found for each file name,
and the error of creating a file at a path, if any. -/
structure World where
  args : List String
  files : String → Loaded
  create : String → Option String

/-- How a run of `main` ends. -/
inductive Exit where
  | fatal (msg : String)
  | crash (idx : Int) (len : Nat)
  | done (outputFile : String) (rows : List (List String))
  deriving DecidableEq, Repr

/-- The records `main` hands to `writeCSV`: all files processed, then sorted. -/
def mergedSorted (S : SortSlice) (files : String → Loaded) (managerEmail : String) :
    Outcome (List Record) :=
  match processFiles files managerEmail csvFiles [] with
  | .ok allRecords => .ok (sortStep S allRecords)
  | .error err => .error err
  | .panic i n => .panic i n

/-- The function `main`. -/
def main (S : SortSlice) (w : World) : Exit :=
  match w.args with
  | [] => .crash 0 0
  | [prog] => .fatal ("Usage: " ++ prog ++ " <ManagerEmail> <outputFile>")
  | [prog, _] => .fatal ("Usage: " ++ prog ++ " <ManagerEmail> <outputFile>")
  | _ :: managerEmail :: outputFile :: _ =>
    match mergedSorted S w.files managerEmail with
    | .error err => .fatal err
    | .panic i n => .crash i n
    | .ok allRecords =>
      let written := writeCSV (w.create outputFile) allRecords
      match written.err with
      | some err => .fatal ("Error writing output file: " ++ err)
      | none => .done outputFile written.rows

/-! ## Specification vocabulary -/

/-- The last cell of a data row, which the loader compares with the filter. -/
def lastCell (row : List String) : Option String := row.getLast?

/-- Whether a data row is kept by the filter. -/
def matchesFilter (managerEmail : String) (row : List String) : Bool :=
  decide (lastCell row = some managerEmail)

/-- Whether some header is the column name once trimmed. -/
def hasColumn (headers : List String) (columnName : String) : Prop :=
  ∃ h ∈ headers, TrimSpace h = columnName

instance (headers : List String) (columnName : String) :
    Decidable (hasColumn headers columnName) :=
  inferInstanceAs (Decidable (∃ h ∈ headers, TrimSpace h = columnName))

/-- The eight columns the loader indexes without a check. -/
def requiredColumns : List String :=
  ["First Name", "Last Name", "Email", "Sent Date (UTC)", "Title", "Manager First Name",
   "Manager Last Name", "Manager Email"]

/-- The header names every required column. -/
def hasRequired (headers : List String) : Prop :=
  ∀ c ∈ requiredColumns, hasColumn headers c

instance (headers : List String) : Decidable (hasRequired headers) :=
  inferInstanceAs (Decidable (∀ c ∈ requiredColumns, hasColumn headers c))

/-- The cell of `row` under the first header whose trimmed name is `columnName`. -/
def cellUnder (headers row : List String) (columnName : String) : Option String :=
  ((headers.zip row).find? (fun p => decide (TrimSpace p.1 = columnName))).map Prod.snd

/-- The record the specification describes for a kept row: the label, and for each
field the cell under its column, the empty string standing for an absent column. -/
def expectedRecord (headers : List String) (reportType : String) (row : List String) : Record :=
  { ReportType := reportType
    FirstName := (cellUnder headers row "First Name").getD ""
    LastName := (cellUnder headers row "Last Name").getD ""
    Email := (cellUnder headers row "Email").getD ""
    SentDateUTC := (cellUnder headers row "Sent Date (UTC)").getD ""
    Title := (cellUnder headers row "Title").getD ""
    Status := (cellUnder headers row "Status").getD ""
    QuizScore := (cellUnder headers row "Quiz Score").getD ""
    Clicked := (cellUnder headers row "Clicked").getD ""
    ManagerFirstName := (cellUnder headers row "Manager First Name").getD ""
    ManagerLastName := (cellUnder headers row "Manager Last Name").getD ""
    ManagerEmail := (cellUnder headers row "Manager Email").getD "" }

/-- What `ReadAll` guarantees of the rows it returns: a record has at least one
field, and every record has as many fields as the first one. -/
def Rectangular (headers : List String) (rows : List (List String)) : Prop :=
  headers ≠ [] ∧ ∀ row ∈ rows, row.length = headers.length

instance (headers : List String) (rows : List (List String)) :
    Decidable (Rectangular headers rows) :=
  inferInstanceAs (Decidable (headers ≠ [] ∧ ∀ row ∈ rows, row.length = headers.length))

/-! ## Sample inputs -/

/-- The header of the four reports, all eleven columns present. -/
def sampleHeaders : List String :=
  ["First Name", "Last Name", "Email", "Sent Date (UTC)", "Title", "Status", "Quiz Score",
   "Clicked", "Manager First Name", "Manager Last Name", "Manager Email"]

/-- Three data rows: two of manager `bob@x.com`, one of another manager. -/
def sampleRows : List (List String) :=
  [["Jane", "Doe", "jane@x.com", "2024-01-01", "Analyst", "Completed", "80", "Yes", "Bob",
    "Mgr", "bob@x.com"],
   ["Tom", "Roe", "tom@x.com", "2024-01-02", "Clerk", "Started", "40", "No", "Amy", "Lead",
    "amy@x.com"],
   ["Ann", "Poe", "ann@x.com", "2024-01-03", "Engineer", "Completed", "95", "No", "Bob",
    "Mgr", "bob@x.com"]]

/-- Rows whose last cell differs from `bob@x.com` in case or by a blank only, and
one whose last cell is exactly that string. -/
def nearMissRows : List (List String) :=
  [["Jane", "Doe", "jane@x.com", "2024-01-01", "Analyst", "Completed", "80", "Yes", "Bob",
    "Mgr", "Bob@x.com"],
   ["Tom", "Roe", "tom@x.com", "2024-01-02", "Clerk", "Started", "40", "No", "Bob", "Mgr",
    " bob@x.com"],
   ["Ann", "Poe", "ann@x.com", "2024-01-03", "Engineer", "Completed", "95", "No", "Bob",
    "Mgr", "bob@x.com"]]

/-- A header with padded names and without the optional columns. -/
def requiredOnlyHeaders : List String :=
  [" First Name", "Last Name ", "Email", "Sent Date (UTC)", "Title", "Manager First Name",
   "Manager Last Name", "Manager Email"]

/-- Two data rows for `requiredOnlyHeaders`. -/
def requiredOnlyRows : List (List String) :=
  [["Jane", "Doe", "jane@x.com", "2024-01-01", "Analyst", "Bob", "Mgr", "bob@x.com"],
   ["Tom", "Roe", "tom@x.com", "2024-01-02", "Clerk", "Amy", "Lead", "amy@x.com"]]

/-- A header in which `Manager Email` is followed by one more column. -/
def trailingColumnHeaders : List String :=
  ["First Name", "Last Name", "Email", "Sent Date (UTC)", "Title", "Manager First Name",
   "Manager Last Name", "Manager Email", "Skip Manager Email"]

/-- A data row for `trailingColumnHeaders`: managed by `alice@x.com`, whose own
manager is `bob@x.com`. -/
def trailingColumnRow : List String :=
  ["Jane", "Doe", "jane@x.com", "2024-01-01", "Analyst", "Alice", "Mgr", "alice@x.com",
   "bob@x.com"]

/-- A header that lacks the required column `First Name`. -/
def noFirstNameHeaders : List String :=
  ["Last Name", "Email", "Sent Date (UTC)", "Title", "Status", "Quiz Score", "Clicked",
   "Manager First Name", "Manager Last Name", "Manager Email"]

/-- A data row for `noFirstNameHeaders`, of manager `bob@x.com`. -/
def noFirstNameRow : List String :=
  ["Doe", "jane@x.com", "2024-01-01", "Analyst", "Completed", "80", "Yes", "Bob", "Mgr",
   "bob@x.com"]

/-- A file system holding a three-row first report, a two-row third report with
the required columns only, and two reports with a header and no data row. -/
def sampleFiles (name : String) : Loaded :=
  if name = "LowScoringUsers.csv" then .parsed (sampleHeaders :: sampleRows)
  else if name = "UserPhishingFailures.csv" then
    .parsed (requiredOnlyHeaders :: requiredOnlyRows)
  else .parsed [sampleHeaders]

/-- Records of two reports in an order that is not sorted. -/
def unsortedRecords : List Record :=
  [{ ReportType := "UserPhishingFailures", FirstName := "Jane", LastName := "Doe",
     Email := "jane@x.com", SentDateUTC := "2024-01-01", Title := "Analyst", Status := "",
     QuizScore := "", Clicked := "Yes", ManagerFirstName := "Bob", ManagerLastName := "Mgr",
     ManagerEmail := "bob@x.com" },
   { ReportType := "LowScoringUsers", FirstName := "Tom", LastName := "Roe",
     Email := "tom@x.com", SentDateUTC := "2024-01-02", Title := "Clerk",
     Status := "Completed", QuizScore := "40", Clicked := "", ManagerFirstName := "Bob",
     ManagerLastName := "Mgr", ManagerEmail := "bob@x.com" },
   { ReportType := "LowScoringUsers", FirstName := "Ann", LastName := "Poe",
     Email := "ann@x.com", SentDateUTC := "2024-01-03", Title := "Engineer",
     Status := "Completed", QuizScore := "35", Clicked := "", ManagerFirstName := "Bob",
     ManagerLastName := "Mgr", ManagerEmail := "bob@x.com" }]

/-- The data row of the end-to-end example. -/
def endToEndRow : List String :=
  ["Jane", "Doe", "jane@x.com", "2024-01-01", "Analyst", "Completed", "80", "Yes", "Bob",
   "Mgr", "bob@x.com"]

/-- The record of the end-to-end example. -/
def endToEndRecord : Record :=
  { ReportType := "LowScoringUsers", FirstName := "Jane", LastName := "Doe",
    Email := "jane@x.com", SentDateUTC := "2024-01-01", Title := "Analyst",
    Status := "Completed", QuizScore := "80", Clicked := "Yes", ManagerFirstName := "Bob",
    ManagerLastName := "Mgr", ManagerEmail := "bob@x.com" }

/-- The files of the end-to-end example: the first report holds `endToEndRow`, the
other three reports hold a header and no data row. -/
def endToEndFiles (name : String) : Loaded :=
  if name = "LowScoringUsers.csv" then .parsed [sampleHeaders, endToEndRow]
  else .parsed [sampleHeaders]

/-- A file system in which the second report cannot be opened; the other files
are those of `sampleFiles`. -/
def secondMissingFiles (name : String) : Loaded :=
  if name = "UserIncompleteSessions.csv" then .openFails "no such file or directory"
  else sampleFiles name

/-- As `secondMissingFiles`, with different content in the two files that follow
the missing one. -/
def secondMissingOtherFiles (name : String) : Loaded :=
  if name = "UserIncompleteSessions.csv" then .openFails "no such file or directory"
  else if name = "LowScoringUsers.csv" then sampleFiles name
  else .readFails "record on line 2: wrong number of fields"

/-- A run in which the second report cannot be opened. -/
def secondMissingWorld : World :=
  { args := ["awsreport", "bob@x.com", "out.csv"]
    files := secondMissingFiles
    create := fun _ => none }

/-- A run with the same arguments and the same first two files as
`secondMissingWorld`, different later files, and an output path that cannot be
created. -/
def secondMissingOtherWorld : World :=
  { args := ["awsreport", "bob@x.com", "out.csv"]
    files := secondMissingOtherFiles
    create := fun _ => some "permission denied" }

/-- A record of the report `LowScoringUsers` for manager `bob@x.com`. -/
def lowScoring (firstName lastName : String) : Record :=
  { ReportType := "LowScoringUsers", FirstName := firstName, LastName := lastName,
    Email := lastName ++ "@x.com", SentDateUTC := "2024-01-01", Title := "Analyst",
    Status := "Completed", QuizScore := "40", Clicked := "No", ManagerFirstName := "Bob",
    ManagerLastName := "Mgr", ManagerEmail := "bob@x.com" }

/-- Thirteen records of one report in row order: twelve with first name `Jane` and,
third, one with first name `Ann`. -/
def thirteenRecords : List Record :=
  [lowScoring "Jane" "Adams", lowScoring "Jane" "Baker", lowScoring "Ann" "Clark",
   lowScoring "Jane" "Davis", lowScoring "Jane" "Evans", lowScoring "Jane" "Ford",
   lowScoring "Jane" "Grant", lowScoring "Jane" "Hill", lowScoring "Jane" "Irwin",
   lowScoring "Jane" "Jones", lowScoring "Jane" "King", lowScoring "Jane" "Lane",
   lowScoring "Jane" "Moore"]

/-- What `sort.Slice` makes of `thirteenRecords`: `Ann Clark` first, then the
twelve records named `Jane`, of which `Grant` and `Baker` now precede `Adams`. -/
def sortedThirteen : List Record :=
  [lowScoring "Ann" "Clark", lowScoring "Jane" "Grant", lowScoring "Jane" "Baker",
   lowScoring "Jane" "Davis", lowScoring "Jane" "Evans", lowScoring "Jane" "Ford",
   lowScoring "Jane" "Adams", lowScoring "Jane" "Hill", lowScoring "Jane" "Irwin",
   lowScoring "Jane" "Jones", lowScoring "Jane" "King", lowScoring "Jane" "Lane",
   lowScoring "Jane" "Moore"]

/-- Two records of the same report and first name. -/
def tiedFirst : Record :=
  { ReportType := "LowScoringUsers", FirstName := "Jane", LastName := "Doe",
    Email := "jane.doe@x.com", SentDateUTC := "2024-01-01", Title := "Analyst",
    Status := "Completed", QuizScore := "80", Clicked := "Yes", ManagerFirstName := "Bob",
    ManagerLastName := "Mgr", ManagerEmail := "bob@x.com" }

/-- The second record with the sort key of `tiedFirst`. -/
def tiedSecond : Record :=
  { ReportType := "LowScoringUsers", FirstName := "Jane", LastName := "Roe",
    Email := "jane.roe@x.com", SentDateUTC := "2024-01-05", Title := "Clerk",
    Status := "Started", QuizScore := "55", Clicked := "No", ManagerFirstName := "Bob",
    ManagerLastName := "Mgr", ManagerEmail := "bob@x.com" }

/-- The sort key of a record. -/
def sortKey (r : Record) : String × String := (r.ReportType, r.FirstName)

/-- The order the specification asks of two adjacent output records. -/
def keyLE (a b : Record) : Prop :=
  a.ReportType < b.ReportType ∨ (a.ReportType = b.ReportType ∧ a.FirstName ≤ b.FirstName)

/-! ## Column lookup -/

theorem indexOfFrom_range (c : String) (hs : List String) (i : Nat) :
    indexOfFrom c hs i = -1 ∨
      ((i : Int) ≤ indexOfFrom c hs i ∧ indexOfFrom c hs i < (i : Int) + hs.length) := by
  induction hs generalizing i with
  | nil => left; rfl
  | cons v rest ih =>
    unfold indexOfFrom
    split
    · right; simp only [List.length_cons]; omega
    · rcases ih (i + 1) with h | h
      · left; exact h
      · right; simp only [List.length_cons]; push_cast at h ⊢; omega

theorem indexOfFrom_eq_neg_one (c : String) (hs : List String) (i : Nat) :
    indexOfFrom c hs i = -1 ↔ ∀ h ∈ hs, TrimSpace h ≠ c := by
  induction hs generalizing i with
  | nil => simp [indexOfFrom]
  | cons v rest ih =>
    unfold indexOfFrom
    by_cases hv : TrimSpace v = c
    · simp only [hv, if_true, List.mem_cons, forall_eq_or_imp, ne_eq, not_true_eq_false,
        false_and, iff_false]
      omega
    · simp only [hv, if_false, List.mem_cons, forall_eq_or_imp, ne_eq, not_false_eq_true,
        true_and]
      exact ih (i + 1)

theorem indexOfFrom_eq_nat (c : String) (hs : List String) (i k : Nat) :
    indexOfFrom c hs i = ((i + k : Nat) : Int) ↔
      (∃ h, hs.get? k = some h ∧ TrimSpace h = c) ∧
        ∀ j, j < k → ∀ h, hs.get? j = some h → TrimSpace h ≠ c := by
  induction hs generalizing i k with
  | nil => simp [indexOfFrom]; omega
  | cons v rest ih =>
    unfold indexOfFrom
    by_cases hv : TrimSpace v = c
    · simp only [hv, if_true]
      constructor
      · intro h
        have hk : k = 0 := by omega
        subst hk
        exact ⟨⟨v, rfl, hv⟩, fun j hj => absurd hj (Nat.not_lt_zero j)⟩
      · rintro ⟨_, h2⟩
        cases k with
        | zero => rfl
        | succ k => exact absurd hv (h2 0 (Nat.succ_pos k) v rfl)
    · simp only [hv, if_false]
      cases k with
      | zero =>
        constructor
        · intro h
          rcases indexOfFrom_range c rest (i + 1) with h1 | h1
          · rw [h1] at h; omega
          · rw [h] at h1; push_cast at h1; omega
        · rintro ⟨⟨h, h1, h2⟩, _⟩
          simp only [List.get?_cons_zero, Option.some.injEq] at h1
          subst h1
          exact absurd h2 hv
      | succ k =>
        have e : i + (k + 1) = (i + 1) + k := by omega
        rw [e, ih (i + 1) k]
        constructor
        · rintro ⟨h1, h2⟩
          refine ⟨by simpa using h1, ?_⟩
          intro j hj h hget
          cases j with
          | zero =>
            simp only [List.get?_cons_zero, Option.some.injEq] at hget
            subst hget
            exact hv
          | succ j => exact h2 j (by omega) h (by simpa using hget)
        · rintro ⟨h1, h2⟩
          refine ⟨by simpa using h1, ?_⟩
          intro j hj h hget
          exact h2 (j + 1) (by omega) h (by simpa using hget)

theorem indexOf_eq_neg_one (headers : List String) (c : String) :
    indexOf headers c = -1 ↔ ¬ hasColumn headers c := by
  unfold indexOf hasColumn
  rw [indexOfFrom_eq_neg_one]
  push_neg
  rfl

/-! ## Trimming -/

theorem dropWhile_append_of_all {p : Char → Bool} (pre l : List Char)
    (h : ∀ c ∈ pre, p c = true) : (pre ++ l).dropWhile p = l.dropWhile p := by
  induction pre with
  | nil => rfl
  | cons a t ih =>
    have ha : p a = true := h a (List.mem_cons_self a t)
    simp only [List.cons_append, List.dropWhile_cons, ha, if_true]
    exact ih (fun c hc => h c (List.mem_cons_of_mem a hc))

theorem reverse_get_zero (l : List Char) (h : 0 < l.reverse.length) (hne : l ≠ []) :
    l.reverse.get ⟨0, h⟩ = l.getLast hne := by
  rw [List.getLast_eq_getElem, List.get_eq_getElem, List.getElem_reverse]
  simp

theorem trim_padded (pre name post : List Char)
    (hpre : ∀ c ∈ pre, isSpace c = true) (hpost : ∀ c ∈ post, isSpace c = true)
    (hhead : ∀ c, name.head? = some c → isSpace c = false)
    (hlast : ∀ c, name.getLast? = some c → isSpace c = false) :
    ((pre ++ name ++ post).dropWhile isSpace).rdropWhile isSpace = name := by
  rw [List.append_assoc, dropWhile_append_of_all pre _ hpre]
  cases name with
  | nil =>
    have : post.dropWhile isSpace = [] := by
      rw [List.dropWhile_eq_nil_iff]; exact hpost
    simp [this, List.rdropWhile]
  | cons a t =>
    have ha : isSpace a = false := hhead a rfl
    have h1 : (a :: t ++ post).dropWhile isSpace = a :: t ++ post := by
      simp [List.dropWhile_cons, ha]
    rw [h1]
    unfold List.rdropWhile
    rw [List.reverse_append,
      dropWhile_append_of_all post.reverse _ (fun c hc => hpost c (List.mem_reverse.mp hc))]
    have h2 : (a :: t).reverse.dropWhile isSpace = (a :: t).reverse := by
      rw [List.dropWhile_eq_self_iff]
      intro hpos
      have hl := hlast ((a :: t).getLast (List.cons_ne_nil a t))
        (List.getLast?_eq_getLast _ _)
      intro hsp
      have e : (a :: t).reverse.get ⟨0, hpos⟩ = (a :: t).getLast (List.cons_ne_nil a t) :=
        reverse_get_zero (a :: t) hpos (List.cons_ne_nil a t)
      rw [e, hl] at hsp
      exact Bool.false_ne_true hsp
    rw [h2, List.reverse_reverse]

/-! ## Indexing a row -/

theorem index_ofNat (row : List String) (k : Nat) :
    index row (k : Int) =
      match row.get? k with
      | some v => .ok v
      | none => .panic (k : Int) row.length := by
  unfold index
  have h : ¬ ((k : Int) < 0) := by omega
  simp only [h, if_false, Int.toNat_ofNat]

theorem index_neg_one (row : List String) : index row (-1) = .panic (-1) row.length := by
  unfold index
  simp

theorem index_last (row : List String) :
    index row ((row.length : Int) - 1) =
      match lastCell row with
      | some v => .ok v
      | none => .panic (-1) 0 := by
  cases row with
  | nil => simp [index, lastCell]
  | cons a t =>
    have e : (((a :: t).length : Int) - 1) = ((t.length : Nat) : Int) := by
      simp only [List.length_cons]; push_cast; omega
    rw [e, index_ofNat]
    have h : (a :: t).get? t.length = lastCell (a :: t) := by
      unfold lastCell
      rw [List.getLast?_eq_getElem?, List.get?_eq_getElem?]
      simp
    rw [h]
    have hs : lastCell (a :: t) = some ((a :: t).getLast (List.cons_ne_nil a t)) :=
      List.getLast?_eq_getLast _ _
    rw [hs]

theorem index_indexOfFrom (c : String) (hs : List String) :
    ∀ (row pre : List String), hs.length ≤ row.length → hasColumn hs c →
      ∃ v, cellUnder hs row c = some v ∧
        index (pre ++ row) (indexOfFrom c hs pre.length) = .ok v := by
  induction hs with
  | nil =>
    intro row pre _ h
    obtain ⟨h1, h2, _⟩ := h
    exact absurd h2 (List.not_mem_nil h1)
  | cons v rest ih =>
    intro row pre hlen hcol
    cases row with
    | nil => simp at hlen
    | cons x xs =>
      unfold indexOfFrom
      by_cases hv : TrimSpace v = c
      · refine ⟨x, by simp [cellUnder, hv], ?_⟩
        simp only [hv, if_true]
        rw [index_ofNat, List.get?_eq_getElem?, List.getElem?_append_right (le_refl _)]
        simp
      · have hcol2 : hasColumn rest c := by
          obtain ⟨h, hm, ht⟩ := hcol
          rcases List.mem_cons.mp hm with e | e
          · subst e; exact absurd ht hv
          · exact ⟨h, e, ht⟩
        have hlen2 : rest.length ≤ xs.length := by
          simp only [List.length_cons] at hlen; omega
        obtain ⟨w, hw1, hw2⟩ := ih xs (pre ++ [x]) hlen2 hcol2
        refine ⟨w, ?_, ?_⟩
        · simpa [cellUnder, hv] using hw1
        · simp only [hv, if_false]
          simpa using hw2

theorem index_indexOf (headers row : List String) (c : String)
    (hlen : headers.length ≤ row.length) (hcol : hasColumn headers c) :
    ∃ v, cellUnder headers row c = some v ∧ index row (indexOf headers c) = .ok v := by
  simpa [indexOf] using index_indexOfFrom c headers row [] hlen hcol

theorem cellUnder_eq_get? (headers row : List String) (c : String) (k : Nat)
    (hlen : headers.length ≤ row.length)
    (hk : ∃ h, headers.get? k = some h ∧ TrimSpace h = c)
    (hfirst : ∀ j, j < k → ∀ h, headers.get? j = some h → TrimSpace h ≠ c) :
    cellUnder headers row c = row.get? k := by
  have hcol : hasColumn headers c := by
    obtain ⟨h, hg, ht⟩ := hk
    exact ⟨h, List.get?_mem hg, ht⟩
  obtain ⟨v, hv1, hv2⟩ := index_indexOf headers row c hlen hcol
  have hidx : indexOf headers c = (k : Int) := by
    have := (indexOfFrom_eq_nat c headers 0 k).mpr ⟨hk, hfirst⟩
    simpa [indexOf] using this
  rw [hidx, index_ofNat] at hv2
  rw [hv1]
  cases hg : row.get? k with
  | none => rw [hg] at hv2; exact Outcome.noConfusion hv2
  | some w =>
    rw [hg] at hv2
    exact congrArg some (Outcome.ok.inj hv2).symm

theorem cellUnder_absent (headers row : List String) (c : String)
    (h : ¬ hasColumn headers c) : cellUnder headers row c = none := by
  unfold cellUnder
  rw [Option.map_eq_none', List.find?_eq_none]
  intro p hp
  have hm : p.1 ∈ headers := (List.of_mem_zip hp).1
  simp only [decide_eq_true_eq]
  intro ht
  exact h ⟨p.1, hm, ht⟩

theorem index_required (headers row : List String) (c : String)
    (hlen : headers.length ≤ row.length) (hcol : hasColumn headers c) :
    index row (indexOf headers c) = .ok ((cellUnder headers row c).getD "") := by
  obtain ⟨v, h1, h2⟩ := index_indexOf headers row c hlen hcol
  rw [h2, h1]; rfl

theorem getColumnValue_eq (headers row : List String) (c : String)
    (hlen : headers.length ≤ row.length) :
    getColumnValue headers row c = .ok ((cellUnder headers row c).getD "") := by
  unfold getColumnValue
  by_cases hcol : hasColumn headers c
  · have hne : indexOf headers c ≠ -1 := fun h => (indexOf_eq_neg_one headers c).mp h hcol
    simp only [hne, if_false]
    exact index_required headers row c hlen hcol
  · have he : indexOf headers c = -1 := (indexOf_eq_neg_one headers c).mpr hcol
    simp only [he, if_true, cellUnder_absent headers row c hcol]
    rfl

theorem getColumnValue_absent (headers row : List String) (c : String)
    (h : ¬ hasColumn headers c) : getColumnValue headers row c = .ok "" := by
  unfold getColumnValue
  simp [(indexOf_eq_neg_one headers c).mpr h]

/-! ## Building a record -/

theorem bind_ok {α β : Type} (v : α) (f : α → Outcome β) :
    (Outcome.ok v >>= f) = f v := rfl

theorem buildRecord_eq (headers row : List String) (reportType : String)
    (hlen : headers.length ≤ row.length) (hreq : hasRequired headers) :
    buildRecord headers row reportType = .ok (expectedRecord headers reportType row) := by
  have h (c : String) (hc : c ∈ requiredColumns) :=
    index_required headers row c hlen (hreq c hc)
  unfold buildRecord
  rw [h "First Name" (by decide), bind_ok, h "Last Name" (by decide), bind_ok,
    h "Email" (by decide), bind_ok, h "Sent Date (UTC)" (by decide), bind_ok,
    h "Title" (by decide), bind_ok, getColumnValue_eq headers row "Status" hlen, bind_ok,
    getColumnValue_eq headers row "Quiz Score" hlen, bind_ok,
    getColumnValue_eq headers row "Clicked" hlen, bind_ok,
    h "Manager First Name" (by decide), bind_ok, h "Manager Last Name" (by decide), bind_ok,
    h "Manager Email" (by decide), bind_ok]
  rfl

theorem bind_eq_ok {α β : Type} (x : Outcome α) (f : α → Outcome β) (b : β) :
    (x >>= f) = .ok b ↔ ∃ a, x = .ok a ∧ f a = .ok b := by
  cases x with
  | ok v => exact ⟨fun h => ⟨v, rfl, h⟩, fun ⟨a, ha, hf⟩ => by cases ha; exact hf⟩
  | error m =>
    exact ⟨fun h => Outcome.noConfusion h, fun ⟨a, ha, _⟩ => Outcome.noConfusion ha⟩
  | panic i n =>
    exact ⟨fun h => Outcome.noConfusion h, fun ⟨a, ha, _⟩ => Outcome.noConfusion ha⟩

theorem buildRecord_ok_inv (headers row : List String) (reportType : String) (r : Record)
    (h : buildRecord headers row reportType = .ok r) :
    (∀ c ∈ requiredColumns, ∃ v, index row (indexOf headers c) = .ok v) ∧
      r.ReportType = reportType ∧
      index row (indexOf headers "First Name") = .ok r.FirstName ∧
      index row (indexOf headers "Manager Email") = .ok r.ManagerEmail := by
  unfold buildRecord at h
  rw [bind_eq_ok] at h; obtain ⟨v1, h1, h⟩ := h
  rw [bind_eq_ok] at h; obtain ⟨v2, h2, h⟩ := h
  rw [bind_eq_ok] at h; obtain ⟨v3, h3, h⟩ := h
  rw [bind_eq_ok] at h; obtain ⟨v4, h4, h⟩ := h
  rw [bind_eq_ok] at h; obtain ⟨v5, h5, h⟩ := h
  rw [bind_eq_ok] at h; obtain ⟨v6, _, h⟩ := h
  rw [bind_eq_ok] at h; obtain ⟨v7, _, h⟩ := h
  rw [bind_eq_ok] at h; obtain ⟨v8, _, h⟩ := h
  rw [bind_eq_ok] at h; obtain ⟨v9, h9, h⟩ := h
  rw [bind_eq_ok] at h; obtain ⟨v10, h10, h⟩ := h
  rw [bind_eq_ok] at h; obtain ⟨v11, h11, h⟩ := h
  have hr : r = _ := (Outcome.ok.inj h).symm
  subst hr
  refine ⟨?_, rfl, h1, h11⟩
  intro c hc
  simp only [requiredColumns, List.mem_cons, List.mem_singleton, List.not_mem_nil,
    or_false] at hc
  rcases hc with e | e | e | e | e | e | e | e <;> subst e
  exacts [⟨_, h1⟩, ⟨_, h2⟩, ⟨_, h3⟩, ⟨_, h4⟩, ⟨_, h5⟩, ⟨_, h9⟩, ⟨_, h10⟩, ⟨_, h11⟩]

theorem buildRecord_missing (headers row : List String) (reportType : String)
    (hmiss : ¬ hasRequired headers) (r : Record) :
    buildRecord headers row reportType ≠ .ok r := by
  intro h
  apply hmiss
  intro c hc
  by_contra hcol
  obtain ⟨v, hv⟩ := (buildRecord_ok_inv headers row reportType r h).1 c hc
  rw [(indexOf_eq_neg_one headers c).mpr hcol, index_neg_one] at hv
  exact Outcome.noConfusion hv

/-! ## The row loop -/

theorem parseRows_cons (headers : List String) (reportType managerEmail : String)
    (row : List String) (rest : List (List String)) (acc : List Record) :
    parseRows headers reportType managerEmail (row :: rest) acc =
      match lastCell row with
      | none => .panic (-1) 0
      | some last =>
        if last = managerEmail then
          buildRecord headers row reportType >>= fun record =>
            parseRows headers reportType managerEmail rest (acc ++ [record])
        else parseRows headers reportType managerEmail rest acc := by
  rw [parseRows, index_last]
  cases lastCell row <;> rfl

theorem matchesFilter_iff (managerEmail : String) (row : List String) :
    matchesFilter managerEmail row = true ↔ lastCell row = some managerEmail := by
  simp [matchesFilter]

theorem parseRows_total (headers : List String) (reportType managerEmail : String)
    (hreq : hasRequired headers) (rows : List (List String)) :
    ∀ acc : List Record, (∀ row ∈ rows, row.length = headers.length) → headers ≠ [] →
      parseRows headers reportType managerEmail rows acc =
        .ok (acc ++ (rows.filter (matchesFilter managerEmail)).map
          (expectedRecord headers reportType)) := by
  induction rows with
  | nil => intro acc _ _; simp [parseRows]
  | cons row rest ih =>
    intro acc hlen hne
    have hrow : row.length = headers.length := hlen row (List.mem_cons_self row rest)
    have hrest : ∀ r ∈ rest, r.length = headers.length :=
      fun r hr => hlen r (List.mem_cons_of_mem row hr)
    rw [parseRows_cons]
    cases hl : lastCell row with
    | none =>
      exfalso
      have : row = [] := by simpa [lastCell] using hl
      rw [this] at hrow
      exact hne (List.length_eq_zero.mp hrow.symm)
    | some last =>
      by_cases hm : last = managerEmail
      · have hf : matchesFilter managerEmail row = true := by
          rw [matchesFilter_iff, hl, hm]
        simp only [hm, if_true]
        rw [buildRecord_eq headers row reportType (le_of_eq hrow.symm) hreq, bind_ok,
          ih _ hrest hne, List.filter_cons_of_pos hf]
        simp
      · have hf : ¬ matchesFilter managerEmail row = true := by
          rw [matchesFilter_iff, hl]
          intro h; exact hm (Option.some.inj h)
        simp only [hm, if_false]
        rw [ih _ hrest hne, List.filter_cons_of_neg hf]

theorem parseRows_sound (headers : List String) (reportType managerEmail : String)
    (rows : List (List String)) :
    ∀ (acc rs : List Record), parseRows headers reportType managerEmail rows acc = .ok rs →
      ∃ recs, List.Forall₂ (fun row r => buildRecord headers row reportType = .ok r)
        (rows.filter (matchesFilter managerEmail)) recs ∧ rs = acc ++ recs := by
  induction rows with
  | nil =>
    intro acc rs h
    refine ⟨[], by simp, ?_⟩
    simpa [parseRows] using (Outcome.ok.inj h).symm
  | cons row rest ih =>
    intro acc rs h
    rw [parseRows_cons] at h
    cases hl : lastCell row with
    | none => rw [hl] at h; exact Outcome.noConfusion h
    | some last =>
      rw [hl] at h
      by_cases hm : last = managerEmail
      · have hf : matchesFilter managerEmail row = true := by
          rw [matchesFilter_iff, hl, hm]
        simp only [hm, if_true] at h
        rw [bind_eq_ok] at h
        obtain ⟨record, hb, h⟩ := h
        obtain ⟨recs, h1, h2⟩ := ih _ _ h
        refine ⟨record :: recs, ?_, by simpa using h2⟩
        rw [List.filter_cons_of_pos hf]
        exact List.Forall₂.cons hb h1
      · have hf : ¬ matchesFilter managerEmail row = true := by
          rw [matchesFilter_iff, hl]
          intro h; exact hm (Option.some.inj h)
        simp only [hm, if_false] at h
        rw [List.filter_cons_of_neg hf]
        exact ih _ _ h

theorem parseRows_no_match (headers : List String) (reportType managerEmail : String)
    (rows : List (List String)) (acc : List Record)
    (hne : ∀ row ∈ rows, row ≠ [])
    (hno : ∀ row ∈ rows, lastCell row ≠ some managerEmail) :
    parseRows headers reportType managerEmail rows acc = .ok acc := by
  induction rows with
  | nil => rfl
  | cons row rest ih =>
    rw [parseRows_cons]
    cases hl : lastCell row with
    | none =>
      exfalso
      exact hne row (List.mem_cons_self row rest) (by simpa [lastCell] using hl)
    | some last =>
      have hm : ¬ last = managerEmail := by
        intro h
        exact hno row (List.mem_cons_self row rest) (by rw [hl, h])
      simp only [hm, if_false]
      exact ih (fun r hr => hne r (List.mem_cons_of_mem row hr))
        (fun r hr => hno r (List.mem_cons_of_mem row hr))

theorem forall₂_mem_left {α β : Type} {R : α → β → Prop} {l : List α} {l2 : List β}
    (h : List.Forall₂ R l l2) {a : α} (ha : a ∈ l) : ∃ b, b ∈ l2 ∧ R a b := by
  induction h with
  | nil => exact absurd ha (List.not_mem_nil a)
  | cons hab _ ih =>
    rcases List.mem_cons.mp ha with e | e
    · subst e; exact ⟨_, List.mem_cons_self _ _, hab⟩
    · obtain ⟨b, hb, hr⟩ := ih e
      exact ⟨b, List.mem_cons_of_mem _ hb, hr⟩

theorem rectangular_rows_ne_nil {headers : List String} {rows : List (List String)}
    (h : Rectangular headers rows) : ∀ row ∈ rows, row ≠ [] := by
  intro row hr he
  have := h.2 row hr
  rw [he] at this
  exact h.1 (List.length_eq_zero.mp this.symm)

theorem parseCSV_parsed (headers : List String) (rows : List (List String))
    (reportType managerEmail : String) :
    parseCSV (.parsed (headers :: rows)) reportType managerEmail =
      parseRows headers reportType managerEmail rows [] := rfl

theorem hasRequired_ne_nil {headers : List String} (h : hasRequired headers) :
    headers ≠ [] := by
  intro he
  obtain ⟨x, hx, _⟩ := h "Email" (by decide)
  rw [he] at hx
  exact List.not_mem_nil x hx

/-! ## The loader: claims -/

/-- C1: for every parsed file (a header row and data rows as long as the header)
whose header names all eight required columns, and every filter, `parseCSV` returns
exactly one record per data row whose last cell equals the filter, in row order;
each record carries the given label and, field by field, the cell of its row under
the first header whose trimmed name is the column of the field (such a cell exists
for each required column). -/
theorem parseCSV_one_record_per_matching_row (headers : List String)
    (rows : List (List String)) (reportType managerEmail : String)
    (hlen : ∀ row ∈ rows, row.length = headers.length) (hreq : hasRequired headers) :
    parseCSV (.parsed (headers :: rows)) reportType managerEmail =
        .ok ((rows.filter (matchesFilter managerEmail)).map
          (expectedRecord headers reportType)) ∧
      (∀ row ∈ rows, ∀ c ∈ requiredColumns, ∃ v, cellUnder headers row c = some v) ∧
      ∀ row ∈ rows, ∀ (c : String) (k : Nat),
        (∃ h, headers.get? k = some h ∧ TrimSpace h = c) →
        (∀ j, j < k → ∀ h, headers.get? j = some h → TrimSpace h ≠ c) →
        cellUnder headers row c = row.get? k := by
  refine ⟨?_, ?_, ?_⟩
  · rw [parseCSV_parsed, parseRows_total headers reportType managerEmail hreq rows [] hlen
      (hasRequired_ne_nil hreq)]
    simp
  · intro row hrow c hc
    obtain ⟨v, hv, _⟩ :=
      index_indexOf headers row c (le_of_eq (hlen row hrow).symm) (hreq c hc)
    exact ⟨v, hv⟩
  · intro row hrow c k hk hfirst
    exact cellUnder_eq_get? headers row c k (le_of_eq (hlen row hrow).symm) hk hfirst

/-- Witness of C1 on a three-row report filtered for `bob@x.com`. -/
theorem parseCSV_one_record_per_matching_row_witness :
    (∀ row ∈ sampleRows, row.length = sampleHeaders.length) ∧ hasRequired sampleHeaders ∧
      (parseCSV (.parsed (sampleHeaders :: sampleRows)) "LowScoringUsers" "bob@x.com" =
          .ok ((sampleRows.filter (matchesFilter "bob@x.com")).map
            (expectedRecord sampleHeaders "LowScoringUsers")) ∧
        ∀ row ∈ sampleRows, ∀ c ∈ requiredColumns,
          ∃ v, cellUnder sampleHeaders row c = some v) :=
  ⟨by decide, by decide,
    (parseCSV_one_record_per_matching_row sampleHeaders sampleRows "LowScoringUsers"
      "bob@x.com" (by decide) (by decide)).1,
    (parseCSV_one_record_per_matching_row sampleHeaders sampleRows "LowScoringUsers"
      "bob@x.com" (by decide) (by decide)).2.1⟩

/-- The filter of the loader is positional: for every parsed file and every filter,
the records `parseCSV` returns are in one-to-one correspondence, in order, with the
data rows whose last cell is exactly the filter, whatever column that cell belongs
to. When no last cell matches the result is empty, and when the header names the
required columns a result is returned. -/
theorem parseCSV_keeps_only_matching_rows (headers : List String)
    (rows : List (List String)) (reportType managerEmail : String)
    (hrect : Rectangular headers rows) :
    (∀ rs, parseCSV (.parsed (headers :: rows)) reportType managerEmail = .ok rs →
        rs.length = (rows.filter (fun row => decide (lastCell row = some managerEmail))).length ∧
        List.Forall₂ (fun row r => buildRecord headers row reportType = .ok r)
          (rows.filter (fun row => decide (lastCell row = some managerEmail))) rs) ∧
      ((∀ row ∈ rows, lastCell row ≠ some managerEmail) →
        parseCSV (.parsed (headers :: rows)) reportType managerEmail = .ok []) ∧
      (hasRequired headers →
        ∃ rs, parseCSV (.parsed (headers :: rows)) reportType managerEmail = .ok rs ∧
          rs.length =
            (rows.filter (fun row => decide (lastCell row = some managerEmail))).length) := by
  refine ⟨?_, ?_, ?_⟩
  · intro rs h
    rw [parseCSV_parsed] at h
    obtain ⟨recs, h1, h2⟩ := parseRows_sound headers reportType managerEmail rows [] rs h
    have e : rs = recs := by simpa using h2
    subst e
    exact ⟨h1.length_eq.symm, h1⟩
  · intro hno
    rw [parseCSV_parsed]
    exact parseRows_no_match headers reportType managerEmail rows []
      (rectangular_rows_ne_nil hrect) hno
  · intro hreq
    refine ⟨(rows.filter (matchesFilter managerEmail)).map
      (expectedRecord headers reportType), ?_, ?_⟩
    · rw [parseCSV_parsed,
        parseRows_total headers reportType managerEmail hreq rows [] hrect.2 hrect.1]
      simp
    · rw [List.length_map]
      rfl

/-- The comparison of the last cell is exact: of three rows whose last cells are
`Bob@x.com`, ` bob@x.com` and `bob@x.com`, only the third is kept by the filter
`bob@x.com`. -/
theorem parseCSV_keeps_only_matching_rows_witness :
    Rectangular sampleHeaders nearMissRows ∧
      (nearMissRows.filter (fun row => decide (lastCell row = some "bob@x.com"))).length = 1 ∧
      ∃ rs, parseCSV (.parsed (sampleHeaders :: nearMissRows)) "LowScoringUsers"
          "bob@x.com" = .ok rs ∧
        rs.length =
          (nearMissRows.filter (fun row => decide (lastCell row = some "bob@x.com"))).length :=
  ⟨by decide, by decide,
    (parseCSV_keeps_only_matching_rows sampleHeaders nearMissRows "LowScoringUsers"
      "bob@x.com" (by decide)).2.2 (by decide)⟩

/-- C2, at a failing input: the header has one more column after `Manager Email`.
With the filter `bob@x.com` the only data row has `alice@x.com` in its manager-email
cell, so no row matches the filter, yet the row contributes a record; with the
filter `alice@x.com` the row matches and no record is returned. The number of
records differs from the number of matching rows both times. -/
theorem parseCSV_counts_last_cell_not_manager_email :
    Rectangular trailingColumnHeaders [trailingColumnRow] ∧
      hasRequired trailingColumnHeaders ∧
      cellUnder trailingColumnHeaders trailingColumnRow "Manager Email" =
        some "alice@x.com" ∧
      ([trailingColumnRow].filter (fun row =>
        decide (cellUnder trailingColumnHeaders row "Manager Email" =
          some "bob@x.com"))).length = 0 ∧
      (∃ r, parseCSV (.parsed [trailingColumnHeaders, trailingColumnRow]) "LowScoringUsers"
        "bob@x.com" = .ok [r]) ∧
      ([trailingColumnRow].filter (fun row =>
        decide (cellUnder trailingColumnHeaders row "Manager Email" =
          some "alice@x.com"))).length = 1 ∧
      parseCSV (.parsed [trailingColumnHeaders, trailingColumnRow]) "LowScoringUsers"
        "alice@x.com" = .ok [] :=
  ⟨by decide, by decide, by decide, by decide,
    ⟨expectedRecord trailingColumnHeaders "LowScoringUsers" trailingColumnRow, by decide⟩,
    by decide, by decide⟩

/-- C3, at a failing input: the header has one more column after `Manager Email`,
the last cell of the row equals the filter `bob@x.com`, and the record returned has
`ManagerEmail = alice@x.com`, which is not the filter. -/
theorem parseCSV_managerEmail_differs_from_filter :
    hasRequired trailingColumnHeaders ∧
      Rectangular trailingColumnHeaders [trailingColumnRow] ∧
      parseCSV (.parsed [trailingColumnHeaders, trailingColumnRow]) "LowScoringUsers"
          "bob@x.com" =
        .ok [{ ReportType := "LowScoringUsers", FirstName := "Jane", LastName := "Doe",
               Email := "jane@x.com", SentDateUTC := "2024-01-01", Title := "Analyst",
               Status := "", QuizScore := "", Clicked := "", ManagerFirstName := "Alice",
               ManagerLastName := "Mgr", ManagerEmail := "alice@x.com" }] := by
  decide

theorem forall₂_mem_right {α β : Type} {R : α → β → Prop} {l : List α} {l2 : List β}
    (h : List.Forall₂ R l l2) {b : β} (hb : b ∈ l2) : ∃ a, a ∈ l ∧ R a b := by
  induction h with
  | nil => exact absurd hb (List.not_mem_nil b)
  | cons hab _ ih =>
    rcases List.mem_cons.mp hb with e | e
    · subst e; exact ⟨_, List.mem_cons_self _ _, hab⟩
    · obtain ⟨a, ha, hr⟩ := ih e
      exact ⟨a, List.mem_cons_of_mem _ ha, hr⟩

/-- When `Manager Email` is the last column of the header, every returned record
has the filter in its `ManagerEmail` field. -/
theorem parseCSV_managerEmail_of_last_column (headers : List String)
    (rows : List (List String)) (reportType managerEmail : String)
    (hrect : Rectangular headers rows)
    (hlast : indexOf headers "Manager Email" = (headers.length : Int) - 1)
    (rs : List Record)
    (h : parseCSV (.parsed (headers :: rows)) reportType managerEmail = .ok rs) :
    ∀ r ∈ rs, r.ManagerEmail = managerEmail := by
  intro r hr
  rw [parseCSV_parsed] at h
  obtain ⟨recs, h1, h2⟩ := parseRows_sound headers reportType managerEmail rows [] rs h
  have e : rs = recs := by simpa using h2
  subst e
  obtain ⟨row, hrow, hb⟩ := forall₂_mem_right h1 hr
  obtain ⟨hmem, hmatch⟩ := List.mem_filter.mp hrow
  have hcell := (buildRecord_ok_inv headers row reportType r hb).2.2.2
  rw [hlast, ← hrect.2 row hmem, index_last,
    (matchesFilter_iff managerEmail row).mp hmatch] at hcell
  exact (Outcome.ok.inj hcell).symm

/-- C7: for every parsed file whose header names the required columns, `parseCSV`
succeeds, and a returned record has the empty string in `Status`, `QuizScore` or
`Clicked` whenever the header has no column of that name. `getColumnValue` returns
the empty string when no trimmed header equals the name, and otherwise the cell of
the row at the first header index whose trimmed name equals it. -/
theorem getColumnValue_optional_default (headers : List String) :
    (∀ (rows : List (List String)) (reportType managerEmail : String),
        Rectangular headers rows → hasRequired headers →
        ∃ rs, parseCSV (.parsed (headers :: rows)) reportType managerEmail = .ok rs ∧
          ∀ r ∈ rs, (¬ hasColumn headers "Status" → r.Status = "") ∧
            (¬ hasColumn headers "Quiz Score" → r.QuizScore = "") ∧
            (¬ hasColumn headers "Clicked" → r.Clicked = "")) ∧
      (∀ (row : List String) (name : String), (∀ h ∈ headers, TrimSpace h ≠ name) →
        getColumnValue headers row name = .ok "") ∧
      (∀ (row : List String) (name : String) (k : Nat) (cell : String),
        row.get? k = some cell →
        (∃ h, headers.get? k = some h ∧ TrimSpace h = name) →
        (∀ j, j < k → ∀ h, headers.get? j = some h → TrimSpace h ≠ name) →
        getColumnValue headers row name = .ok cell) := by
  refine ⟨?_, ?_, ?_⟩
  · intro rows reportType managerEmail hrect hreq
    refine ⟨(rows.filter (matchesFilter managerEmail)).map
      (expectedRecord headers reportType), ?_, ?_⟩
    · rw [parseCSV_parsed,
        parseRows_total headers reportType managerEmail hreq rows [] hrect.2 hrect.1]
      simp
    · intro r hr
      obtain ⟨row, _, e⟩ := List.mem_map.mp hr
      subst e
      refine ⟨?_, ?_, ?_⟩ <;> intro h <;>
        simp [expectedRecord, cellUnder_absent headers row _ h]
  · intro row name h
    apply getColumnValue_absent
    rintro ⟨x, hx, hx2⟩
    exact h x hx hx2
  · intro row name k cell hcell hk hfirst
    have hidx : indexOf headers name = (k : Int) := by
      have := (indexOfFrom_eq_nat name headers 0 k).mpr ⟨hk, hfirst⟩
      simpa [indexOf] using this
    unfold getColumnValue
    have hne : ¬ ((k : Int) = -1) := by omega
    simp only [hidx, hne, if_false]
    rw [index_ofNat, hcell]

/-- Witness of C7: a header with the eight required columns only; the kept record
has empty `Status`, `QuizScore` and `Clicked`. -/
theorem getColumnValue_optional_default_witness :
    Rectangular requiredOnlyHeaders requiredOnlyRows ∧ hasRequired requiredOnlyHeaders ∧
      ¬ hasColumn requiredOnlyHeaders "Status" ∧
      ¬ hasColumn requiredOnlyHeaders "Quiz Score" ∧
      ¬ hasColumn requiredOnlyHeaders "Clicked" ∧
      ∃ rs, parseCSV (.parsed (requiredOnlyHeaders :: requiredOnlyRows)) "LowScoringUsers"
          "bob@x.com" = .ok rs ∧
        ∀ r ∈ rs, (¬ hasColumn requiredOnlyHeaders "Status" → r.Status = "") ∧
          (¬ hasColumn requiredOnlyHeaders "Quiz Score" → r.QuizScore = "") ∧
          (¬ hasColumn requiredOnlyHeaders "Clicked" → r.Clicked = "") :=
  ⟨by decide, by decide, by decide, by decide, by decide,
    (getColumnValue_optional_default requiredOnlyHeaders).1 requiredOnlyRows
      "LowScoringUsers" "bob@x.com" (by decide) (by decide)⟩

/-- C8 fails as stated: the header lacks `First Name`; with no data row the load
succeeds with no record, and with a row of the filtered manager it ends in a
run-time panic at index -1, not in a returned error. -/
theorem parseCSV_missing_required_not_reported :
    ¬ hasRequired noFirstNameHeaders ∧
      parseCSV (.parsed [noFirstNameHeaders]) "LowScoringUsers" "bob@x.com" = .ok [] ∧
      parseCSV (.parsed [noFirstNameHeaders, noFirstNameRow]) "LowScoringUsers"
        "bob@x.com" = .panic (-1) 10 := by
  decide

/-- C8, amended: for every parsed file whose header lacks a required column, the
load returns successfully with no record when no data row has the filter as its
last cell, and it does not return successfully when some data row has. -/
theorem parseCSV_missing_required (headers : List String) (rows : List (List String))
    (reportType managerEmail : String) (hrect : Rectangular headers rows)
    (hmiss : ¬ hasRequired headers) :
    ((∀ row ∈ rows, lastCell row ≠ some managerEmail) →
        parseCSV (.parsed (headers :: rows)) reportType managerEmail = .ok []) ∧
      ((∃ row ∈ rows, lastCell row = some managerEmail) →
        ∀ rs, parseCSV (.parsed (headers :: rows)) reportType managerEmail ≠ .ok rs) := by
  constructor
  · intro hno
    rw [parseCSV_parsed]
    exact parseRows_no_match headers reportType managerEmail rows []
      (rectangular_rows_ne_nil hrect) hno
  · rintro ⟨row, hrow, hlast⟩ rs h
    rw [parseCSV_parsed] at h
    obtain ⟨recs, h1, _⟩ := parseRows_sound headers reportType managerEmail rows [] rs h
    have hmem : row ∈ rows.filter (matchesFilter managerEmail) :=
      List.mem_filter.mpr ⟨hrow, (matchesFilter_iff managerEmail row).mpr hlast⟩
    obtain ⟨r, _, hb⟩ := forall₂_mem_left h1 hmem
    exact buildRecord_missing headers row reportType hmiss r hb

/-- Witness of the amended C8 on the header without `First Name` and one row of
the filtered manager. -/
theorem parseCSV_missing_required_witness :
    Rectangular noFirstNameHeaders [noFirstNameRow] ∧ ¬ hasRequired noFirstNameHeaders ∧
      (∃ row ∈ [noFirstNameRow], lastCell row = some "bob@x.com") ∧
      ∀ rs, parseCSV (.parsed (noFirstNameHeaders :: [noFirstNameRow])) "LowScoringUsers"
        "bob@x.com" ≠ .ok rs :=
  ⟨by decide, by decide, by decide,
    (parseCSV_missing_required noFirstNameHeaders [noFirstNameRow] "LowScoringUsers"
      "bob@x.com" (by decide) (by decide)).2 (by decide)⟩

/-- C9: `indexOf` returns -1 exactly when no header equals the column name after
trimming, and otherwise the smallest index whose trimmed header equals the name
exactly. A header that differs in letter case is not matched; a header that is the
name surrounded by white space is matched. -/
theorem indexOf_first_trimmed_match (headers : List String) (columnName : String) :
    (indexOf headers columnName = -1 ↔ ∀ h ∈ headers, TrimSpace h ≠ columnName) ∧
      (indexOf headers columnName = -1 ∨
        ∃ k : Nat, k < headers.length ∧ indexOf headers columnName = (k : Int)) ∧
      (∀ k : Nat, indexOf headers columnName = (k : Int) ↔
        (∃ h, headers.get? k = some h ∧ TrimSpace h = columnName) ∧
          ∀ j, j < k → ∀ h, headers.get? j = some h → TrimSpace h ≠ columnName) ∧
      (∀ pre post : List Char, (∀ c ∈ pre, isSpace c = true) →
        (∀ c ∈ post, isSpace c = true) →
        (∀ c, columnName.data.head? = some c → isSpace c = false) →
        (∀ c, columnName.data.getLast? = some c → isSpace c = false) →
        indexOf [String.mk (pre ++ columnName.data ++ post)] columnName = 0) ∧
      indexOf ["first name", "FIRST NAME"] "First Name" = -1 ∧
      indexOf ["Last Name", " \tFirst Name \n", "First Name"] "First Name" = 1 := by
  refine ⟨indexOfFrom_eq_neg_one columnName headers 0, ?_, ?_, ?_, by decide, by decide⟩
  · rcases indexOfFrom_range columnName headers 0 with h | h
    · left; exact h
    · right
      refine ⟨(indexOf headers columnName).toNat, ?_, ?_⟩
      · unfold indexOf; omega
      · unfold indexOf; omega
  · intro k
    have := indexOfFrom_eq_nat columnName headers 0 k
    simpa [indexOf] using this
  · intro pre post hpre hpost hhead hlast
    have ht : TrimSpace (String.mk (pre ++ columnName.data ++ post)) = columnName := by
      unfold TrimSpace
      simp only [trim_padded pre columnName.data post hpre hpost hhead hlast]
    unfold indexOf indexOfFrom
    rw [if_pos ht]
    rfl

/-! ## The comparison of the sort step -/

theorem stringLess_iff (a b : String) : stringLess a b = true ↔ a < b := by
  simp [stringLess, String.lt_iff_toList_lt]

theorem less_iff (a b : Record) :
    less a b = true ↔ toLex (sortKey a) < toLex (sortKey b) := by
  rw [Prod.Lex.lt_iff]
  unfold less sortKey
  by_cases h : a.ReportType = b.ReportType
  · simp [h, stringLess_iff]
  · simp [h, stringLess_iff]

theorem less_eq_false_iff (a b : Record) :
    less b a = false ↔ toLex (sortKey a) ≤ toLex (sortKey b) := by
  rw [← not_lt, ← less_iff]
  simp

theorem keyLE_iff (a b : Record) : keyLE a b ↔ toLex (sortKey a) ≤ toLex (sortKey b) := by
  rw [Prod.Lex.le_iff]
  rfl

theorem less_strictWeak : StrictWeak less where
  irrefl a := by
    rw [less_eq_false_iff]
  trans a b c hab hbc := by
    rw [less_iff] at hab hbc ⊢
    exact lt_trans hab hbc
  negTrans a b c hab hbc := by
    rw [less_eq_false_iff] at hab hbc ⊢
    exact le_trans hbc hab

theorem chain_get? {R : Record → Record → Prop} :
    ∀ {l : List Record}, l.Chain' R → ∀ (i : Nat) (a b : Record),
      l.get? i = some a → l.get? (i + 1) = some b → R a b
  | [], _, i, a, b, ha, _ => by simp at ha
  | [x], _, i, a, b, _, hb => by simp at hb
  | x :: y :: t, h, i, a, b, ha, hb => by
    cases i with
    | zero =>
      simp only [List.get?_cons_zero, Option.some.injEq] at ha
      simp only [List.get?_cons_succ, List.get?_cons_zero, Option.some.injEq] at hb
      subst ha; subst hb
      exact (List.chain'_cons.mp h).1
    | succ i =>
      exact chain_get? (List.chain'_cons.mp h).2 i a b (by simpa using ha) (by simpa using hb)

theorem sortStep_chain (S : SortSlice) (l : List Record) : (sortStep S l).Chain' keyLE := by
  refine (S.sorted less l less_strictWeak).imp ?_
  intro a b h
  rw [keyLE_iff, ← less_eq_false_iff]
  exact h

theorem sortStep_keys_sorted (S : SortSlice) (l : List Record) :
    ((sortStep S l).map (fun r => toLex (sortKey r))).Sorted (· ≤ ·) := by
  have h := sortStep_chain S l
  haveI : IsTrans Record keyLE := ⟨fun a b c hab hbc => by
    rw [keyLE_iff] at hab hbc ⊢
    exact le_trans hab hbc⟩
  rw [List.chain'_iff_pairwise] at h
  unfold List.Sorted
  rw [List.pairwise_map]
  exact h.imp (fun {a b} hab => (keyLE_iff a b).mp hab)

theorem sortStep_perm (S : SortSlice) (l : List Record) : (sortStep S l).Perm l :=
  S.perm less l

theorem insertionSortSlice_stable (l : List Record) (a b : Record)
    (hab : less b a = false) (h : List.Sublist [a, b] l) :
    List.Sublist [a, b] (sortStep insertionSortSlice l) :=
  List.pair_sublist_insertionSort hab h

theorem processFiles_four (files : String → Loaded) (managerEmail : String)
    (r1 r2 r3 r4 : List Record)
    (h1 : parseCSV (files "LowScoringUsers.csv") "LowScoringUsers" managerEmail = .ok r1)
    (h2 : parseCSV (files "UserIncompleteSessions.csv") "UserIncompleteSessions"
      managerEmail = .ok r2)
    (h3 : parseCSV (files "UserPhishingFailures.csv") "UserPhishingFailures"
      managerEmail = .ok r3)
    (h4 : parseCSV (files "UserIncompleteRemediations.csv") "UserIncompleteRemediations"
      managerEmail = .ok r4) :
    processFiles files managerEmail csvFiles [] = .ok (r1 ++ r2 ++ r3 ++ r4) := by
  have t1 : TrimSuffix "LowScoringUsers.csv" ".csv" = "LowScoringUsers" := by decide
  have t2 : TrimSuffix "UserIncompleteSessions.csv" ".csv" = "UserIncompleteSessions" := by
    decide
  have t3 : TrimSuffix "UserPhishingFailures.csv" ".csv" = "UserPhishingFailures" := by
    decide
  have t4 : TrimSuffix "UserIncompleteRemediations.csv" ".csv" =
      "UserIncompleteRemediations" := by decide
  simp only [csvFiles, processFiles, t1, t2, t3, t4, h1, h2, h3, h4, List.nil_append]

/-! ## Merge and sort: claims -/

/-- C4: for every list of records, the output of the sort step of `main` is ordered
by (ReportType, FirstName): for every two adjacent output records `a`, `b`, either
`a.ReportType < b.ReportType`, or the report types are equal and
`a.FirstName ≤ b.FirstName`. -/
theorem sortStep_ordered_by_reportType_firstName (S : SortSlice) (l : List Record) :
    (sortStep S l).Chain' (fun a b =>
        a.ReportType < b.ReportType ∨
          (a.ReportType = b.ReportType ∧ a.FirstName ≤ b.FirstName)) ∧
      ∀ (i : Nat) (a b : Record), (sortStep S l).get? i = some a →
        (sortStep S l).get? (i + 1) = some b →
        a.ReportType < b.ReportType ∨
          (a.ReportType = b.ReportType ∧ a.FirstName ≤ b.FirstName) :=
  ⟨sortStep_chain S l, chain_get? (sortStep_chain S l)⟩

/-- C4 on three records of two reports, sorted by insertion sort: the records of
`LowScoringUsers` come first, `Ann` before `Tom`. -/
theorem sortStep_ordered_by_reportType_firstName_witness :
    (sortStep insertionSortSlice unsortedRecords).map sortKey =
        [("LowScoringUsers", "Ann"), ("LowScoringUsers", "Tom"),
         ("UserPhishingFailures", "Jane")] ∧
      (sortStep insertionSortSlice unsortedRecords).Chain' (fun a b =>
        a.ReportType < b.ReportType ∨
          (a.ReportType = b.ReportType ∧ a.FirstName ≤ b.FirstName)) :=
  ⟨by decide,
    (sortStep_ordered_by_reportType_firstName insertionSortSlice unsortedRecords).1⟩

/-! ### The library sort on concrete slices -/

theorem pdqsort_func_short (xorshiftNext : Nat → Nat) (lt : Record → Record → Bool)
    (fuel : Nat) (data : List Record) (a b limit : Nat) (wasBalanced wasPartitioned : Bool)
    (h : b - a ≤ 12) :
    pdqsort_func xorshiftNext lt (fuel + 1) data a b limit wasBalanced wasPartitioned =
      some (insertionSort_func lt data a b) := by
  rw [pdqsort_func]
  simp only [h, if_true]

/-- A slice of at most twelve elements is sorted by insertion sort alone. -/
theorem slice_short (xorshiftNext : Nat → Nat) (lt : Record → Record → Bool)
    (data : List Record) (h : data.length ≤ 12) :
    Slice xorshiftNext lt data = some (insertionSort_func lt data 0 data.length) :=
  pdqsort_func_short xorshiftNext lt data.length data 0 data.length _ true true
    (by omega)

/-- The first round of `pdqsort_func` on a whole slice of more than twelve elements
whose two parts after the partition are short: no pattern breaking, no reversal, a
pivot, the partition, and an insertion sort of each part, the shorter part first. -/
theorem pdqsort_func_first_round (xorshiftNext : Nat → Nat) (lt : Record → Record → Bool)
    (fuel : Nat) (data : List Record) (b limit : Nat) (pivot : Nat) (hint : sortedHint)
    (data2 : List Record) (mid : Nat) (already : Bool)
    (hlen : 12 < b) (hlim : limit ≠ 0)
    (hcp : choosePivot_func lt data 0 b = (pivot, hint))
    (hne : hint ≠ .decreasingHint)
    (hpi : partialInsertionSort_func lt data 0 b = (data, false))
    (hpart : partition_func lt data 0 b pivot = (data2, mid, already))
    (hl : mid ≤ 12) (hr : b - (mid + 1) ≤ 12) :
    pdqsort_func xorshiftNext lt (fuel + 2) data 0 b limit true true =
      if mid < b - mid then
        some (insertionSort_func lt (insertionSort_func lt data2 0 mid) (mid + 1) b)
      else some (insertionSort_func lt (insertionSort_func lt data2 (mid + 1) b) 0 mid) := by
  rw [pdqsort_func]
  have h1 : ¬ (b - 0 ≤ 12) := by omega
  simp only [h1, if_false, hlim, if_true, hcp, hne, decide_False, Bool.false_eq_true,
    Nat.sub_zero, Bool.true_and, hpart, Nat.lt_irrefl, decide_False, Bool.false_and]
  have ht : (if decide (hint = sortedHint.increasingHint) = true then
      partialInsertionSort_func lt data 0 b else (data, false)) = (data, false) := by
    split
    · exact hpi
    · rfl
  have h2 : ¬ (b ≤ 12) := by omega
  have hl2 : mid - 0 ≤ 12 := by omega
  simp only [ht, h2, if_false, Bool.false_eq_true, hpart,
    pdqsort_func_short xorshiftNext lt fuel data2 0 mid limit true true hl2,
    pdqsort_func_short xorshiftNext lt fuel data2 (mid + 1) b limit true true hr]
  split
  · exact pdqsort_func_short xorshiftNext lt fuel _ (mid + 1) b limit _ _ hr
  · exact pdqsort_func_short xorshiftNext lt fuel _ 0 mid limit _ _ hl2

/-- The run of `sort.Slice` on `thirteenRecords`: the pivot is index 6 (`Grant`),
the partition exchanges indices 0 and 6, then 1 and 2, then 1 and 0, and the two
insertion sorts move nothing. -/
theorem slice_thirteenRecords (xorshiftNext : Nat → Nat) :
    Slice xorshiftNext less thirteenRecords = some sortedThirteen := by
  have h := pdqsort_func_first_round xorshiftNext less 12 thirteenRecords 13 4 6
    .increasingHint (partition_func less thirteenRecords 0 13 6).1 1 false
    (by decide) (by decide) (by decide) (by decide) (by decide) (by decide) (by decide)
    (by decide)
  have e : Slice xorshiftNext less thirteenRecords =
      pdqsort_func xorshiftNext less (12 + 2) thirteenRecords 0 13 4 true true := rfl
  rw [e, h]
  decide

/-- On two records of equal key the library sort is one insertion step that moves
nothing: the input order is kept. -/
theorem slice_two_tied (xorshiftNext : Nat → Nat) :
    Slice xorshiftNext less [tiedFirst, tiedSecond] = some [tiedFirst, tiedSecond] := by
  rw [slice_short xorshiftNext less [tiedFirst, tiedSecond] (by decide)]
  decide

/-- C5 fails as stated: `thirteenRecords` holds `Jane Adams` before `Jane Baker`,
two records of equal report type and first name, and `sort.Slice` with the
comparison of `main` returns `Jane Baker` before `Jane Adams`, whatever the
pseudo-random generator of the library yields. The output is a rearrangement of the
input in which no record is less than its predecessor. -/
theorem slice_reorders_equal_keys :
    sortKey (lowScoring "Jane" "Adams") = sortKey (lowScoring "Jane" "Baker") ∧
      List.Sublist [lowScoring "Jane" "Adams", lowScoring "Jane" "Baker"] thirteenRecords ∧
      (∀ xorshiftNext : Nat → Nat,
        Slice xorshiftNext less thirteenRecords = some sortedThirteen) ∧
      ¬ List.Sublist [lowScoring "Jane" "Adams", lowScoring "Jane" "Baker"] sortedThirteen ∧
      List.Sublist [lowScoring "Jane" "Baker", lowScoring "Jane" "Adams"] sortedThirteen ∧
      sortedThirteen.Chain' (fun a b => less b a = false) ∧
      sortedThirteen.Perm thirteenRecords :=
  ⟨by decide, by decide, slice_thirteenRecords, by decide, by decide,
    by
      simp only [sortedThirteen, List.chain'_cons, List.chain'_singleton, and_true]
      decide,
    by decide⟩

/-- C5, amended: the sort step is not stable; it fixes the output up to the order
of records with equal ReportType and FirstName. For every key, the records of that
key in the output are a rearrangement of those in the input, and the sequence of
keys of the output is the same for every sort that meets the contract of
`sort.Slice`. -/
theorem sortStep_determined_up_to_equal_keys (S : SortSlice) (l : List Record) :
    (∀ k : String × String,
        ((sortStep S l).filter (fun r => decide (sortKey r = k))).Perm
          (l.filter (fun r => decide (sortKey r = k)))) ∧
      ∀ T : SortSlice, (sortStep S l).map sortKey = (sortStep T l).map sortKey := by
  constructor
  · intro k
    exact (sortStep_perm S l).filter _
  · intro T
    have hp : ((sortStep S l).map (fun r => toLex (sortKey r))).Perm
        ((sortStep T l).map (fun r => toLex (sortKey r))) :=
      ((sortStep_perm S l).trans (sortStep_perm T l).symm).map _
    have he := List.eq_of_perm_of_sorted hp (sortStep_keys_sorted S l)
      (sortStep_keys_sorted T l)
    exact he

/-- C6: for every four per-file record lists returned by the loads, the list that
`main` hands to the writer is the sorted concatenation of the four, which is a
rearrangement of the concatenation: every record occurs in it as many times as in
the four lists together. -/
theorem mergedSorted_perm_of_concat (S : SortSlice) (files : String → Loaded)
    (managerEmail : String) (r1 r2 r3 r4 : List Record)
    (h1 : parseCSV (files "LowScoringUsers.csv") "LowScoringUsers" managerEmail = .ok r1)
    (h2 : parseCSV (files "UserIncompleteSessions.csv") "UserIncompleteSessions"
      managerEmail = .ok r2)
    (h3 : parseCSV (files "UserPhishingFailures.csv") "UserPhishingFailures"
      managerEmail = .ok r3)
    (h4 : parseCSV (files "UserIncompleteRemediations.csv") "UserIncompleteRemediations"
      managerEmail = .ok r4) :
    ∃ out, mergedSorted S files managerEmail = .ok out ∧
      out = sortStep S (r1 ++ r2 ++ r3 ++ r4) ∧
      out.Perm (r1 ++ r2 ++ r3 ++ r4) ∧
      ∀ r, out.count r = r1.count r + r2.count r + r3.count r + r4.count r := by
  refine ⟨sortStep S (r1 ++ r2 ++ r3 ++ r4), ?_, rfl, sortStep_perm S _, ?_⟩
  · unfold mergedSorted
    rw [processFiles_four files managerEmail r1 r2 r3 r4 h1 h2 h3 h4]
  · intro r
    rw [(sortStep_perm S (r1 ++ r2 ++ r3 ++ r4)).count_eq r]
    simp only [List.count_append]

/-- Witness of C6 on `sampleFiles`, filtered for `bob@x.com`: two records from the
first report, one from the third, none from the other two. -/
theorem mergedSorted_perm_of_concat_witness :
    ∃ out, mergedSorted insertionSortSlice sampleFiles "bob@x.com" = .ok out ∧
      out = sortStep insertionSortSlice
        ((sampleRows.filter (matchesFilter "bob@x.com")).map
            (expectedRecord sampleHeaders "LowScoringUsers") ++ [] ++
          (requiredOnlyRows.filter (matchesFilter "bob@x.com")).map
            (expectedRecord requiredOnlyHeaders "UserPhishingFailures") ++ []) ∧
      out.Perm
        ((sampleRows.filter (matchesFilter "bob@x.com")).map
            (expectedRecord sampleHeaders "LowScoringUsers") ++ [] ++
          (requiredOnlyRows.filter (matchesFilter "bob@x.com")).map
            (expectedRecord requiredOnlyHeaders "UserPhishingFailures") ++ []) ∧
      ∀ r, out.count r =
        ((sampleRows.filter (matchesFilter "bob@x.com")).map
            (expectedRecord sampleHeaders "LowScoringUsers")).count r +
          ([] : List Record).count r +
          ((requiredOnlyRows.filter (matchesFilter "bob@x.com")).map
            (expectedRecord requiredOnlyHeaders "UserPhishingFailures")).count r +
          ([] : List Record).count r :=
  mergedSorted_perm_of_concat insertionSortSlice sampleFiles "bob@x.com" _ _ _ _
    (by decide) (by decide) (by decide) (by decide)

/-! ## The writer: claims -/

theorem writeRows_eq (records : List Record) :
    ∀ out : List (List String), writeRows records out = out ++ records.map recordRow := by
  induction records with
  | nil => intro out; simp [writeRows]
  | cons r rest ih => intro out; simp [writeRows, ih]

/-- C10: for every list of records, the rows `writeCSV` hands to the CSV writer of
a created file are the fixed header row of twelve names followed by one row of
twelve fields per record, in the order of the list; the row of a record holds, under
each header name, the field of the record for that column. -/
theorem writeCSV_header_then_one_row_per_record (records : List Record) :
    (writeCSV none records).rows = headerRow :: records.map recordRow ∧
      (writeCSV none records).err = none ∧
      headerRow = ["ReportType", "First Name", "Last Name", "Email", "Sent Date (UTC)",
        "Title", "Status", "Quiz Score", "Clicked", "Manager First Name",
        "Manager Last Name", "Manager Email"] ∧
      (writeCSV none records).rows.length = 1 + records.length ∧
      (∀ row ∈ (writeCSV none records).rows, row.length = 12) ∧
      ∀ (i : Nat) (r : Record), records.get? i = some r →
        (writeCSV none records).rows.get? (i + 1) = some (recordRow r) ∧
        cellUnder headerRow (recordRow r) "ReportType" = some r.ReportType ∧
        cellUnder headerRow (recordRow r) "First Name" = some r.FirstName ∧
        cellUnder headerRow (recordRow r) "Last Name" = some r.LastName ∧
        cellUnder headerRow (recordRow r) "Email" = some r.Email ∧
        cellUnder headerRow (recordRow r) "Sent Date (UTC)" = some r.SentDateUTC ∧
        cellUnder headerRow (recordRow r) "Title" = some r.Title ∧
        cellUnder headerRow (recordRow r) "Status" = some r.Status ∧
        cellUnder headerRow (recordRow r) "Quiz Score" = some r.QuizScore ∧
        cellUnder headerRow (recordRow r) "Clicked" = some r.Clicked ∧
        cellUnder headerRow (recordRow r) "Manager First Name" = some r.ManagerFirstName ∧
        cellUnder headerRow (recordRow r) "Manager Last Name" = some r.ManagerLastName ∧
        cellUnder headerRow (recordRow r) "Manager Email" = some r.ManagerEmail := by
  have hrows : (writeCSV none records).rows = headerRow :: records.map recordRow := by
    simp [writeCSV, writeRows_eq]
  refine ⟨hrows, rfl, rfl, ?_, ?_, ?_⟩
  · rw [hrows]; simp; omega
  · rw [hrows]
    intro row hrow
    rcases List.mem_cons.mp hrow with e | e
    · subst e; rfl
    · obtain ⟨r, _, e2⟩ := List.mem_map.mp e
      subst e2; rfl
  · intro i r hr
    refine ⟨?_, rfl, rfl, rfl, rfl, rfl, rfl, rfl, rfl, rfl, rfl, rfl, rfl⟩
    rw [hrows]
    simp [List.get?_eq_getElem?] at hr ⊢
    simp [hr]

/-! ## The comparison of the sort step: claims -/

/-- C16: the comparison used by the sort of `main` holds of `a`, `b` exactly when
`a.ReportType < b.ReportType`, or the report types are equal and
`a.FirstName < b.FirstName`. It is a strict weak ordering: irreflexive, asymmetric,
transitive, with transitive incomparability; two records are incomparable exactly
when their ReportType and FirstName are both equal. -/
theorem less_strict_weak_ordering :
    (∀ a b : Record, less a b = true ↔
        a.ReportType < b.ReportType ∨
          (a.ReportType = b.ReportType ∧ a.FirstName < b.FirstName)) ∧
      (∀ a : Record, less a a = false) ∧
      (∀ a b : Record, less a b = true → less b a = false) ∧
      (∀ a b c : Record, less a b = true → less b c = true → less a c = true) ∧
      (∀ a b : Record, (less a b = false ∧ less b a = false) ↔
        (a.ReportType = b.ReportType ∧ a.FirstName = b.FirstName)) ∧
      (∀ a b c : Record, (less a b = false ∧ less b a = false) →
        (less b c = false ∧ less c b = false) → (less a c = false ∧ less c a = false)) := by
  have hinc : ∀ a b : Record, (less a b = false ∧ less b a = false) ↔
      (a.ReportType = b.ReportType ∧ a.FirstName = b.FirstName) := by
    intro a b
    rw [less_eq_false_iff, less_eq_false_iff]
    constructor
    · rintro ⟨h1, h2⟩
      have e : sortKey a = sortKey b := toLex.injective (le_antisymm h2 h1)
      exact ⟨congrArg Prod.fst e, congrArg Prod.snd e⟩
    · rintro ⟨h1, h2⟩
      have e : sortKey a = sortKey b := Prod.ext h1 h2
      rw [e]
      exact ⟨le_refl _, le_refl _⟩
  refine ⟨?_, less_strictWeak.irrefl, ?_, less_strictWeak.trans, hinc, ?_⟩
  · intro a b
    rw [less_iff, Prod.Lex.lt_iff]
    rfl
  · intro a b hab
    cases hba : less b a with
    | false => rfl
    | true =>
      have := less_strictWeak.trans a b a hab hba
      rw [less_strictWeak.irrefl a] at this
      exact absurd this Bool.false_ne_true
  · intro a b c hab hbc
    exact ⟨less_strictWeak.negTrans a b c hab.1 hbc.1,
      less_strictWeak.negTrans c b a hbc.2 hab.2⟩

/-! ## The loader: safety claims -/

/-- C15: for every parsed file (every data row non-empty) in which no data row has
the filter as its last cell, a header-only file included, `parseCSV` returns
successfully with an empty result whatever the header holds, also when required
columns are missing: the header is consulted only for rows that match. -/
theorem parseCSV_no_match_empty (headers : List String) (rows : List (List String))
    (reportType managerEmail : String) (hne : ∀ row ∈ rows, row ≠ [])
    (hno : ∀ row ∈ rows, lastCell row ≠ some managerEmail) :
    parseCSV (.parsed (headers :: rows)) reportType managerEmail = .ok [] ∧
      ∀ other : List String,
        parseCSV (.parsed (other :: rows)) reportType managerEmail = .ok [] := by
  constructor
  · rw [parseCSV_parsed]
    exact parseRows_no_match headers reportType managerEmail rows [] hne hno
  · intro other
    rw [parseCSV_parsed]
    exact parseRows_no_match other reportType managerEmail rows [] hne hno

/-- Witness of C15: a header without `First Name` and one data row of manager
`bob@x.com`, filtered for `amy@x.com`; and the same header with no data row. -/
theorem parseCSV_no_match_empty_witness :
    ¬ hasRequired noFirstNameHeaders ∧
      (∀ row ∈ [noFirstNameRow], row ≠ []) ∧
      (∀ row ∈ [noFirstNameRow], lastCell row ≠ some "amy@x.com") ∧
      parseCSV (.parsed (noFirstNameHeaders :: [noFirstNameRow])) "LowScoringUsers"
        "amy@x.com" = .ok [] ∧
      parseCSV (.parsed (noFirstNameHeaders :: [])) "LowScoringUsers" "bob@x.com" = .ok [] :=
  ⟨by decide, by decide, by decide,
    (parseCSV_no_match_empty noFirstNameHeaders [noFirstNameRow] "LowScoringUsers"
      "amy@x.com" (by decide) (by decide)).1,
    (parseCSV_no_match_empty noFirstNameHeaders [] "LowScoringUsers" "bob@x.com"
      (by decide) (by decide)).1⟩

theorem indexOf_range (headers : List String) (c : String) :
    indexOf headers c = -1 ∨ (0 ≤ indexOf headers c ∧ indexOf headers c < headers.length) := by
  rcases indexOfFrom_range c headers 0 with h | h
  · left; exact h
  · right
    unfold indexOf
    constructor
    · have := h.1
      push_cast at this
      exact this
    · have := h.2
      push_cast at this
      omega

/-- The optional columns, read through `getColumnValue`. -/
theorem optional_index_in_range (headers row : List String) (c : String)
    (hlen : row.length = headers.length) :
    indexOf headers c = -1 ∨ (0 ≤ indexOf headers c ∧ indexOf headers c < row.length) := by
  rw [hlen]
  exact indexOf_range headers c

/-- C14: for every parsed file with a header row, whose data rows are non-empty and
as long as the header, and whose header names the eight required columns,
`parseCSV` returns successfully for every filter, and every index it computes for
a row lies within the bounds of that row: the index of the last cell, the index of
each required column, and the index of each optional column when it is not -1 (in
which case the row is not accessed). -/
theorem parseCSV_index_safe (headers : List String) (rows : List (List String))
    (reportType managerEmail : String)
    (hne : ∀ row ∈ rows, row ≠ [])
    (hlen : ∀ row ∈ rows, row.length = headers.length)
    (hreq : hasRequired headers) :
    (∃ rs, parseCSV (.parsed (headers :: rows)) reportType managerEmail = .ok rs) ∧
      ∀ row ∈ rows,
        (0 ≤ (row.length : Int) - 1 ∧ (row.length : Int) - 1 < row.length ∧
          ∃ v, index row ((row.length : Int) - 1) = .ok v) ∧
        (∀ c ∈ requiredColumns,
          0 ≤ indexOf headers c ∧ indexOf headers c < row.length ∧
            ∃ v, index row (indexOf headers c) = .ok v) ∧
        (∀ c ∈ ["Status", "Quiz Score", "Clicked"],
          (indexOf headers c = -1 ∨
            (0 ≤ indexOf headers c ∧ indexOf headers c < row.length)) ∧
            ∃ v, getColumnValue headers row c = .ok v) ∧
        ∃ r, buildRecord headers row reportType = .ok r := by
  constructor
  · exact ⟨_, by
      rw [parseCSV_parsed]
      exact parseRows_total headers reportType managerEmail hreq rows [] hlen
        (hasRequired_ne_nil hreq)⟩
  · intro row hrow
    have hl := hlen row hrow
    have hpos : 0 < row.length := List.length_pos.mpr (hne row hrow)
    refine ⟨⟨by omega, by omega, ?_⟩, ?_, ?_, ?_⟩
    · rw [index_last]
      cases hc : lastCell row with
      | none => exact absurd (by simpa [lastCell] using hc) (hne row hrow)
      | some v => exact ⟨v, rfl⟩
    · intro c hc
      have hcol := hreq c hc
      have hidx : indexOf headers c ≠ -1 :=
        fun h => (indexOf_eq_neg_one headers c).mp h hcol
      rcases optional_index_in_range headers row c hl with h | h
      · exact absurd h hidx
      · exact ⟨h.1, h.2, _, index_required headers row c (le_of_eq hl.symm) hcol⟩
    · intro c _
      exact ⟨optional_index_in_range headers row c hl, _,
        getColumnValue_eq headers row c (le_of_eq hl.symm)⟩
    · exact ⟨_, buildRecord_eq headers row reportType (le_of_eq hl.symm) hreq⟩

/-- Witness of C14 on the three-row sample report. -/
theorem parseCSV_index_safe_witness :
    (∀ row ∈ sampleRows, row ≠ []) ∧
      (∀ row ∈ sampleRows, row.length = sampleHeaders.length) ∧
      hasRequired sampleHeaders ∧
      ∃ rs, parseCSV (.parsed (sampleHeaders :: sampleRows)) "LowScoringUsers"
        "bob@x.com" = .ok rs :=
  ⟨by decide, by decide, by decide,
    (parseCSV_index_safe sampleHeaders sampleRows "LowScoringUsers" "bob@x.com"
      (by decide) (by decide) (by decide)).1⟩

/-! ## Report types -/

theorem parseCSV_reportType (file : Loaded) (reportType managerEmail : String)
    (rs : List Record) (h : parseCSV file reportType managerEmail = .ok rs) :
    ∀ r ∈ rs, r.ReportType = reportType := by
  intro r hr
  cases file with
  | openFails e => exact Outcome.noConfusion h
  | readFails e => exact Outcome.noConfusion h
  | parsed records =>
    cases records with
    | nil => exact Outcome.noConfusion h
    | cons headers rows =>
      rw [parseCSV_parsed] at h
      obtain ⟨recs, h1, h2⟩ := parseRows_sound headers reportType managerEmail rows [] rs h
      have e : rs = recs := by simpa using h2
      subst e
      obtain ⟨row, _, hb⟩ := forall₂_mem_right h1 hr
      exact (buildRecord_ok_inv headers row reportType r hb).2.1

theorem processFiles_ok_inv (files : String → Loaded) (managerEmail : String)
    (fs : List String) :
    ∀ (acc out : List Record), processFiles files managerEmail fs acc = .ok out →
      (∀ f ∈ fs, ∃ rs, parseCSV (files f) (TrimSuffix f ".csv") managerEmail = .ok rs) ∧
      ∀ r ∈ out, r ∈ acc ∨ ∃ f ∈ fs, ∃ rs,
        parseCSV (files f) (TrimSuffix f ".csv") managerEmail = .ok rs ∧ r ∈ rs := by
  induction fs with
  | nil =>
    intro acc out h
    have e : acc = out := Outcome.ok.inj h
    subst e
    exact ⟨fun f hf => absurd hf (List.not_mem_nil f), fun r hr => Or.inl hr⟩
  | cons file rest ih =>
    intro acc out h
    unfold processFiles at h
    cases hp : parseCSV (files file) (TrimSuffix file ".csv") managerEmail with
    | error e => rw [hp] at h; exact Outcome.noConfusion h
    | panic i n => rw [hp] at h; exact Outcome.noConfusion h
    | ok records =>
      rw [hp] at h
      obtain ⟨h1, h2⟩ := ih _ _ h
      constructor
      · intro f hf
        rcases List.mem_cons.mp hf with e | e
        · subst e; exact ⟨records, hp⟩
        · exact h1 f e
      · intro r hr
        rcases h2 r hr with h3 | ⟨f, hf, rs, hrs, hmem⟩
        · rcases List.mem_append.mp h3 with h4 | h4
          · exact Or.inl h4
          · exact Or.inr ⟨file, List.mem_cons_self _ _, records, hp, h4⟩
        · exact Or.inr ⟨f, List.mem_cons_of_mem _ hf, rs, hrs, hmem⟩

/-- C13: the report types `main` passes for its four input files are the file names
without the suffix `.csv`: LowScoringUsers, UserIncompleteSessions,
UserPhishingFailures, UserIncompleteRemediations. Every record returned by
`parseCSV` for a label carries that label whatever the file holds, so every record
`main` collects was loaded from an input file `f` and carries `f` without `.csv`. -/
theorem reportType_is_file_name_without_csv :
    csvFiles.map (fun file => TrimSuffix file ".csv") =
        ["LowScoringUsers", "UserIncompleteSessions", "UserPhishingFailures",
         "UserIncompleteRemediations"] ∧
      (∀ (file : Loaded) (reportType managerEmail : String) (rs : List Record),
        parseCSV file reportType managerEmail = .ok rs →
        ∀ r ∈ rs, r.ReportType = reportType) ∧
      (∀ (files : String → Loaded) (managerEmail : String) (allRecords : List Record),
        processFiles files managerEmail csvFiles [] = .ok allRecords →
        ∀ r ∈ allRecords, ∃ f ∈ csvFiles, ∃ rs,
          parseCSV (files f) (TrimSuffix f ".csv") managerEmail = .ok rs ∧ r ∈ rs ∧
            r.ReportType = TrimSuffix f ".csv") ∧
      (∀ (S : SortSlice) (files : String → Loaded) (managerEmail : String)
        (sorted : List Record), mergedSorted S files managerEmail = .ok sorted →
        ∀ r ∈ sorted, ∃ f ∈ csvFiles, r.ReportType = TrimSuffix f ".csv") := by
  have hcollect : ∀ (files : String → Loaded) (managerEmail : String)
      (allRecords : List Record),
      processFiles files managerEmail csvFiles [] = .ok allRecords →
      ∀ r ∈ allRecords, ∃ f ∈ csvFiles, ∃ rs,
        parseCSV (files f) (TrimSuffix f ".csv") managerEmail = .ok rs ∧ r ∈ rs ∧
          r.ReportType = TrimSuffix f ".csv" := by
    intro files managerEmail allRecords h r hr
    rcases (processFiles_ok_inv files managerEmail csvFiles [] allRecords h).2 r hr with
      h1 | ⟨f, hf, rs, hrs, hmem⟩
    · exact absurd h1 (List.not_mem_nil r)
    · exact ⟨f, hf, rs, hrs, hmem, parseCSV_reportType _ _ _ rs hrs r hmem⟩
  refine ⟨by decide, parseCSV_reportType, hcollect, ?_⟩
  intro S files managerEmail sorted h r hr
  unfold mergedSorted at h
  cases hp : processFiles files managerEmail csvFiles [] with
  | error e => rw [hp] at h; exact Outcome.noConfusion h
  | panic i n => rw [hp] at h; exact Outcome.noConfusion h
  | ok allRecords =>
    rw [hp] at h
    have e : sortStep S allRecords = sorted := Outcome.ok.inj h
    subst e
    have hmem : r ∈ allRecords := (sortStep_perm S allRecords).subset hr
    obtain ⟨f, hf, _, _, _, hrt⟩ := hcollect files managerEmail allRecords hp r hmem
    exact ⟨f, hf, hrt⟩

/-- C13 on `sampleFiles`: the three records kept for `bob@x.com` carry the labels
of the first and the third report. -/
theorem reportType_is_file_name_without_csv_witness :
    ∃ sorted, mergedSorted insertionSortSlice sampleFiles "bob@x.com" = .ok sorted ∧
      sorted.map (fun r => r.ReportType) =
        ["LowScoringUsers", "LowScoringUsers", "UserPhishingFailures"] ∧
      ∀ r ∈ sorted, ∃ f ∈ csvFiles, r.ReportType = TrimSuffix f ".csv" :=
  ⟨sortStep insertionSortSlice
      ((sampleRows.filter (matchesFilter "bob@x.com")).map
          (expectedRecord sampleHeaders "LowScoringUsers") ++
        (requiredOnlyRows.filter (matchesFilter "bob@x.com")).map
          (expectedRecord requiredOnlyHeaders "UserPhishingFailures")),
    by decide, by decide,
    reportType_is_file_name_without_csv.2.2.2 insertionSortSlice sampleFiles "bob@x.com" _
      (by decide)⟩

/-! ## The pipeline of `main` -/

theorem main_eq (S : SortSlice) (w : World) (prog managerEmail outputFile : String)
    (more : List String) (hargs : w.args = prog :: managerEmail :: outputFile :: more) :
    main S w =
      match mergedSorted S w.files managerEmail with
      | .error err => .fatal err
      | .panic i n => .crash i n
      | .ok allRecords =>
        match (writeCSV (w.create outputFile) allRecords).err with
        | some err => .fatal ("Error writing output file: " ++ err)
        | none => .done outputFile (writeCSV (w.create outputFile) allRecords).rows := by
  unfold main
  rw [hargs]

theorem processFiles_fail_error (files : String → Loaded) (managerEmail file : String)
    (post : List String) (e : String)
    (hfail : parseCSV (files file) (TrimSuffix file ".csv") managerEmail = .error e) :
    ∀ (pre : List String) (acc : List Record),
      (∀ f ∈ pre, ∃ rs, parseCSV (files f) (TrimSuffix f ".csv") managerEmail = .ok rs) →
      processFiles files managerEmail (pre ++ file :: post) acc =
        .error ("Error processing file " ++ file ++ ": " ++ e) := by
  intro pre
  induction pre with
  | nil =>
    intro acc _
    simp only [List.nil_append, processFiles, hfail]
  | cons g rest ih =>
    intro acc hpre
    obtain ⟨rs, hrs⟩ := hpre g (List.mem_cons_self g rest)
    simp only [List.cons_append, processFiles, hrs]
    exact ih _ (fun f hf => hpre f (List.mem_cons_of_mem g hf))

theorem processFiles_fail_panic (files : String → Loaded) (managerEmail file : String)
    (post : List String) (i : Int) (n : Nat)
    (hfail : parseCSV (files file) (TrimSuffix file ".csv") managerEmail = .panic i n) :
    ∀ (pre : List String) (acc : List Record),
      (∀ f ∈ pre, ∃ rs, parseCSV (files f) (TrimSuffix f ".csv") managerEmail = .ok rs) →
      processFiles files managerEmail (pre ++ file :: post) acc = .panic i n := by
  intro pre
  induction pre with
  | nil =>
    intro acc _
    simp only [List.nil_append, processFiles, hfail]
  | cons g rest ih =>
    intro acc hpre
    obtain ⟨rs, hrs⟩ := hpre g (List.mem_cons_self g rest)
    simp only [List.cons_append, processFiles, hrs]
    exact ih _ (fun f hf => hpre f (List.mem_cons_of_mem g hf))

theorem processFiles_all_ok (files : String → Loaded) (managerEmail : String)
    (fs : List String) :
    ∀ acc : List Record,
      (∀ f ∈ fs, ∃ rs, parseCSV (files f) (TrimSuffix f ".csv") managerEmail = .ok rs) →
      ∃ out, processFiles files managerEmail fs acc = .ok out := by
  induction fs with
  | nil => intro acc _; exact ⟨acc, rfl⟩
  | cons g rest ih =>
    intro acc h
    obtain ⟨rs, hrs⟩ := h g (List.mem_cons_self g rest)
    simp only [processFiles, hrs]
    exact ih _ (fun f hf => h f (List.mem_cons_of_mem g hf))

theorem main_fatal_of_load_error (S : SortSlice) (w : World)
    (prog managerEmail outputFile : String) (more pre post : List String)
    (file e : String) (hargs : w.args = prog :: managerEmail :: outputFile :: more)
    (hfiles : csvFiles = pre ++ file :: post)
    (hpre : ∀ f ∈ pre, ∃ rs,
      parseCSV (w.files f) (TrimSuffix f ".csv") managerEmail = .ok rs)
    (hfail : parseCSV (w.files file) (TrimSuffix file ".csv") managerEmail = .error e) :
    main S w = .fatal ("Error processing file " ++ file ++ ": " ++ e) := by
  rw [main_eq S w prog managerEmail outputFile more hargs]
  unfold mergedSorted
  rw [hfiles, processFiles_fail_error w.files managerEmail file post e hfail pre [] hpre]

theorem main_crash_of_load_panic (S : SortSlice) (w : World)
    (prog managerEmail outputFile : String) (more pre post : List String)
    (file : String) (i : Int) (n : Nat)
    (hargs : w.args = prog :: managerEmail :: outputFile :: more)
    (hfiles : csvFiles = pre ++ file :: post)
    (hpre : ∀ f ∈ pre, ∃ rs,
      parseCSV (w.files f) (TrimSuffix f ".csv") managerEmail = .ok rs)
    (hfail : parseCSV (w.files file) (TrimSuffix file ".csv") managerEmail = .panic i n) :
    main S w = .crash i n := by
  rw [main_eq S w prog managerEmail outputFile more hargs]
  unfold mergedSorted
  rw [hfiles, processFiles_fail_panic w.files managerEmail file post i n hfail pre [] hpre]

/-- C12: in the pipeline of `main` over the four fixed input files, a load that
fails ends the run with that error at once: the run is fatal with the message of the
failed file whatever the later files hold, whichever sort is used and whether or not
the output file could be created, so no later file is loaded, nothing is sorted and
nothing is written (likewise a load that panics ends the run in that panic). The
run reaches `writeCSV` only when all four loads succeed, and then it does. -/
theorem main_stops_at_first_failed_load (S : SortSlice) (w : World)
    (prog managerEmail outputFile : String) (more : List String)
    (hargs : w.args = prog :: managerEmail :: outputFile :: more) :
    (∀ (pre post : List String) (file e : String), csvFiles = pre ++ file :: post →
        (∀ f ∈ pre, ∃ rs,
          parseCSV (w.files f) (TrimSuffix f ".csv") managerEmail = .ok rs) →
        parseCSV (w.files file) (TrimSuffix file ".csv") managerEmail = .error e →
        main S w = .fatal ("Error processing file " ++ file ++ ": " ++ e) ∧
          ∀ (T : SortSlice) (v : World), v.args = w.args →
            (∀ f ∈ pre, v.files f = w.files f) → v.files file = w.files file →
            main T v = main S w) ∧
      (∀ (pre post : List String) (file : String) (i : Int) (n : Nat),
        csvFiles = pre ++ file :: post →
        (∀ f ∈ pre, ∃ rs,
          parseCSV (w.files f) (TrimSuffix f ".csv") managerEmail = .ok rs) →
        parseCSV (w.files file) (TrimSuffix file ".csv") managerEmail = .panic i n →
        main S w = .crash i n ∧
          ∀ (T : SortSlice) (v : World), v.args = w.args →
            (∀ f ∈ pre, v.files f = w.files f) → v.files file = w.files file →
            main T v = main S w) ∧
      (∀ (out : String) (rows : List (List String)), main S w = .done out rows →
        ∀ f ∈ csvFiles, ∃ rs,
          parseCSV (w.files f) (TrimSuffix f ".csv") managerEmail = .ok rs) ∧
      ((∀ f ∈ csvFiles, ∃ rs,
          parseCSV (w.files f) (TrimSuffix f ".csv") managerEmail = .ok rs) →
        ∃ allRecords, mergedSorted S w.files managerEmail = .ok allRecords ∧
          main S w =
            match (writeCSV (w.create outputFile) allRecords).err with
            | some err => .fatal ("Error writing output file: " ++ err)
            | none => .done outputFile (writeCSV (w.create outputFile) allRecords).rows) := by
  refine ⟨?_, ?_, ?_, ?_⟩
  · intro pre post file e hfiles hpre hfail
    have h1 := main_fatal_of_load_error S w prog managerEmail outputFile more pre post file e
      hargs hfiles hpre hfail
    refine ⟨h1, ?_⟩
    intro T v hv hsame hfile
    rw [h1]
    refine main_fatal_of_load_error T v prog managerEmail outputFile more pre post file e
      (hv.trans hargs) hfiles ?_ ?_
    · intro f hf
      rw [hsame f hf]
      exact hpre f hf
    · rw [hfile]
      exact hfail
  · intro pre post file i n hfiles hpre hfail
    have h1 := main_crash_of_load_panic S w prog managerEmail outputFile more pre post file
      i n hargs hfiles hpre hfail
    refine ⟨h1, ?_⟩
    intro T v hv hsame hfile
    rw [h1]
    refine main_crash_of_load_panic T v prog managerEmail outputFile more pre post file i n
      (hv.trans hargs) hfiles ?_ ?_
    · intro f hf
      rw [hsame f hf]
      exact hpre f hf
    · rw [hfile]
      exact hfail
  · intro out rows hdone
    rw [main_eq S w prog managerEmail outputFile more hargs] at hdone
    unfold mergedSorted at hdone
    cases hp : processFiles w.files managerEmail csvFiles [] with
    | error e => rw [hp] at hdone; exact Exit.noConfusion hdone
    | panic i n => rw [hp] at hdone; exact Exit.noConfusion hdone
    | ok allRecords =>
      exact (processFiles_ok_inv w.files managerEmail csvFiles [] allRecords hp).1
  · intro hall
    obtain ⟨allRecords, hp⟩ := processFiles_all_ok w.files managerEmail csvFiles [] hall
    refine ⟨sortStep S allRecords, ?_, ?_⟩
    · unfold mergedSorted
      rw [hp]
    · rw [main_eq S w prog managerEmail outputFile more hargs]
      unfold mergedSorted
      rw [hp]

/-- Witness of C12: the second report cannot be opened. The run is fatal with the
message for that file, and a run that differs in the third and fourth file, in the
sort and in the output path ends the same way. -/
theorem main_stops_at_first_failed_load_witness :
    secondMissingWorld.args = ["awsreport", "bob@x.com", "out.csv"] ∧
      main insertionSortSlice secondMissingWorld =
        .fatal ("Error processing file UserIncompleteSessions.csv: " ++
          "error opening file: no such file or directory") ∧
      main reversingSortSlice secondMissingOtherWorld =
        main insertionSortSlice secondMissingWorld :=
  have h := (main_stops_at_first_failed_load insertionSortSlice secondMissingWorld
    "awsreport" "bob@x.com" "out.csv" [] rfl).1 ["LowScoringUsers.csv"]
    ["UserPhishingFailures.csv", "UserIncompleteRemediations.csv"]
    "UserIncompleteSessions.csv" "error opening file: no such file or directory" rfl
    (by
      intro f hf
      rw [List.mem_singleton] at hf
      subst hf
      exact ⟨(sampleRows.filter (matchesFilter "bob@x.com")).map
        (expectedRecord sampleHeaders "LowScoringUsers"), by decide⟩)
    (by decide)
  ⟨rfl, h.1, h.2 reversingSortSlice secondMissingOtherWorld rfl
    (by
      intro f hf
      rw [List.mem_singleton] at hf
      subst hf
      rfl)
    rfl⟩

/-- C11: the end-to-end example. Loading the header of eleven columns and the single
data row of Jane Doe with the label LowScoringUsers and the filter `bob@x.com`,
then sorting and serializing, yields the header row followed by exactly one data
row: LowScoringUsers, Jane, Doe, jane@x.com, 2024-01-01, Analyst, Completed, 80,
Yes, Bob, Mgr, bob@x.com. The same rows are written by `main` when the other three
reports hold no data row. -/
theorem end_to_end_low_scoring_users (S : SortSlice) :
    parseCSV
        (.parsed
          [["First Name", "Last Name", "Email", "Sent Date (UTC)", "Title", "Status",
            "Quiz Score", "Clicked", "Manager First Name", "Manager Last Name",
            "Manager Email"],
           ["Jane", "Doe", "jane@x.com", "2024-01-01", "Analyst", "Completed", "80", "Yes",
            "Bob", "Mgr", "bob@x.com"]])
        "LowScoringUsers" "bob@x.com" = .ok [endToEndRecord] ∧
      sortStep S [endToEndRecord] = [endToEndRecord] ∧
      (writeCSV none (sortStep S [endToEndRecord])).rows =
        [headerRow,
         ["LowScoringUsers", "Jane", "Doe", "jane@x.com", "2024-01-01", "Analyst",
          "Completed", "80", "Yes", "Bob", "Mgr", "bob@x.com"]] ∧
      ∀ prog outputFile : String,
        main S { args := [prog, "bob@x.com", outputFile], files := endToEndFiles,
                 create := fun _ => none } =
          .done outputFile
            [headerRow,
             ["LowScoringUsers", "Jane", "Doe", "jane@x.com", "2024-01-01", "Analyst",
              "Completed", "80", "Yes", "Bob", "Mgr", "bob@x.com"]] := by
  have hsort : sortStep S [endToEndRecord] = [endToEndRecord] :=
    List.perm_singleton.mp (sortStep_perm S [endToEndRecord])
  refine ⟨by decide, hsort, ?_, ?_⟩
  · rw [hsort]
    decide
  · intro prog outputFile
    rw [main_eq S _ prog "bob@x.com" outputFile [] rfl]
    unfold mergedSorted
    rw [processFiles_four endToEndFiles "bob@x.com" [endToEndRecord] [] [] []
      (by decide) (by decide) (by decide) (by decide)]
    simp only [List.append_nil, hsort]
    rfl

end AwsReport
